import Mathlib

/-!
Shallow embedding of the AssetVerse backend (src/index.js, final server
version: the document spanning lines 1003-2084, which is the one the
repository currently runs; earlier concatenated documents are prior
revisions of the same file).

Collections are modelled as Lean lists in insertion order; `findOne` is
`List.find?`, `updateOne` updates the first matching document, `insertOne`
appends, `deleteOne` removes the first match.  MongoDB ObjectIds are
modelled as `Nat` drawn from per-collection counters starting at 1 (so a
stored id is never 0, and the JavaScript falsy check `!assetId` is `= 0`).
JavaScript numbers arriving in request bodies are modelled as `Int`;
the falsy check `!x` on a number is `x = 0`, on a string it is `x = ""`.
Calendar timestamps are abstracted: a stamped date is `some 0`, an absent
date is `none` (no claim depends on date values, only on presence).
-/

namespace AssetVerse

/-- `updateOne`: rewrite the first element satisfying `p` with `f`. -/
def updateFirst (p : α → Bool) (f : α → α) : List α → List α
  | [] => []
  | x :: xs => if p x then f x :: xs else x :: updateFirst p f xs

/-- `deleteOne`: remove the first element satisfying `p`. -/
def removeFirst (p : α → Bool) : List α → List α
  | [] => []
  | x :: xs => if p x then xs else x :: removeFirst p xs

/-- A user document in `UserInfo`.  HR documents carry the quota fields;
for non-HR documents those fields are absent in Mongo and modelled by the
defaults `0` (they are only ever read through role-filtered lookups). -/
structure UserDoc where
  name : String
  email : String
  role : String
  dateOfBirth : String
  companyName : String
  companyLogo : String
  subscription : String
  packageLimit : Int
  currentEmployees : Int
  photo : String
  deriving Repr, DecidableEq

/-- An asset document in `assetCollection`. -/
structure AssetDoc where
  aid : Nat
  productName : String
  productImage : String
  productType : String
  productQuantity : Int
  availableQuantity : Int
  hrEmail : String
  companyName : String
  deriving Repr, DecidableEq

/-- A request document in `requestCollection`. -/
structure RequestDoc where
  rid : Nat
  assetId : Nat
  assetName : String
  assetType : String
  requesterName : String
  requesterEmail : String
  hrEmail : String
  companyName : String
  approvalDate : Option Nat
  rejectionDate : Option Nat
  requestStatus : String
  note : String
  deriving Repr, DecidableEq

/-- An affiliation document in `employeeAffiliationsCollection`. -/
structure AffiliationDoc where
  employeeEmail : String
  employeeName : String
  hrEmail : String
  companyName : String
  companyLogo : String
  status : String
  deriving Repr, DecidableEq

/-- An assignment document in `assignedAssetsCollection`. -/
structure AssignmentDoc where
  sid : Nat
  assetId : Nat
  assetName : String
  assetImage : String
  assetType : String
  employeeEmail : String
  employeeName : String
  hrEmail : String
  companyName : String
  returnDate : Option Nat
  status : String
  deriving Repr, DecidableEq

/-- The whole database. -/
structure DB where
  users : List UserDoc
  assets : List AssetDoc
  requests : List RequestDoc
  affiliations : List AffiliationDoc
  assignments : List AssignmentDoc
  nextAssetId : Nat
  nextRequestId : Nat
  nextAssignId : Nat
  deriving Repr, DecidableEq

/-- The empty database the server starts against. -/
def initDB : DB :=
  { users := [], assets := [], requests := [], affiliations := [],
    assignments := [], nextAssetId := 1, nextRequestId := 1, nextAssignId := 1 }

/-- An HTTP response, keeping the pieces of the JSON bodies the claims
talk about. -/
structure Response where
  code : Nat
  message : String
  insertedId : Option Nat := none
  returnedAssets : Option Nat := none
  deriving Repr, DecidableEq

/-! ### Query predicates used by the handlers -/

def isHRWithEmail (e : String) (u : UserDoc) : Bool :=
  u.email == e && u.role == "HR"

def hasEmail (e : String) (u : UserDoc) : Bool := u.email == e

def assetById (i : Nat) (a : AssetDoc) : Bool := a.aid == i

def assetInStockById (i : Nat) (a : AssetDoc) : Bool :=
  a.aid == i && a.productQuantity > 0

def requestById (i : Nat) (r : RequestDoc) : Bool := r.rid == i

def pendingRequestById (i : Nat) (r : RequestDoc) : Bool :=
  r.rid == i && r.requestStatus == "pending"

def requestForPair (assetId : Nat) (requesterEmail : String) (r : RequestDoc) : Bool :=
  r.assetId == assetId && r.requesterEmail == requesterEmail &&
    (r.requestStatus == "pending" || r.requestStatus == "approved" ||
     r.requestStatus == "rejected")

def activeRequestForAsset (assetId : Nat) (r : RequestDoc) : Bool :=
  r.assetId == assetId &&
    (r.requestStatus == "pending" || r.requestStatus == "approved")

def activeAffiliation (employeeEmail hrEmail : String) (a : AffiliationDoc) : Bool :=
  a.employeeEmail == employeeEmail && a.hrEmail == hrEmail && a.status == "active"

def assignedForPair (employeeEmail hrEmail : String) (a : AssignmentDoc) : Bool :=
  a.employeeEmail == employeeEmail && a.hrEmail == hrEmail && a.status == "assigned"

def assignedAssetToEmployee (assetId : Nat) (employeeEmail : String)
    (a : AssignmentDoc) : Bool :=
  a.assetId == assetId && a.employeeEmail == employeeEmail && a.status == "assigned"

def assignmentById (i : Nat) (a : AssignmentDoc) : Bool := a.sid == i

/-! ### Handlers (final server version of src/index.js) -/

/-- JavaScript's `toUpperCase` on the role string, modelled
character-by-character (equivalent to `String.toUpper`, but reducible in
the kernel). -/
def jsToUpper (s : String) : String := ⟨s.data.map Char.toUpper⟩

/-- The user document built by `POST /user` (index.js 1119-1143): base
fields, then the HR quota defaults or the employee photo depending on the
uppercased role. -/
def mkUserDoc (name email role companyName companyLogo photo dob : String) : UserDoc :=
  let normalizedRole := jsToUpper role
  let base : UserDoc :=
    { name := name, email := email, role := normalizedRole, dateOfBirth := dob,
      companyName := "", companyLogo := "", subscription := "",
      packageLimit := 0, currentEmployees := 0, photo := "" }
  if normalizedRole = "HR" then
    { base with companyName := companyName, companyLogo := companyLogo,
                subscription := "basic", packageLimit := 5, currentEmployees := 0 }
  else if normalizedRole = "EMPLOYEE" then
    { base with photo := photo }
  else base

/-- `POST /user` (index.js 1092-1163).  Absent body fields are `""`. -/
def createUser (s : DB) (name email role companyName companyLogo photo dob : String) :
    Response × DB :=
  if email = "" ∨ role = "" then
    ({ code := 400, message := "Email and role are required" }, s)
  else if (s.users.find? (hasEmail email)).isSome then
    ({ code := 409, message := "User already exists" }, s)
  else
    ({ code := 201, message := "" },
     { s with users := s.users ++ [mkUserDoc name email role companyName companyLogo photo dob] })

/-- `POST /assetcollection` (index.js 1166-1231).  Note that the only
validation on `productQuantity` is the JavaScript falsy check, so `0` is
rejected but a negative number passes and is stored in both quantity
fields via `Number(productQuantity)`. -/
def addAsset (s : DB) (productName productImage productType : String)
    (productQuantity : Int) (hrEmail companyName : String) : Response × DB :=
  if productName = "" ∨ productImage = "" ∨ productType = "" ∨
      productQuantity = 0 ∨ hrEmail = "" ∨ companyName = "" then
    ({ code := 400, message := "All fields are required" }, s)
  else if ¬(productType = "Returnable" ∨ productType = "Non-returnable") then
    ({ code := 400, message := "Product type must be Returnable or Non-returnable" }, s)
  else
    match s.users.find? (isHRWithEmail hrEmail) with
    | none =>
        ({ code := 403, message := "Unauthorized: Only verified HR users can add assets" }, s)
    | some user =>
        if user.companyName ≠ companyName then
          ({ code := 403, message := "Unauthorized: Company name does not match your account" }, s)
        else
          let newAsset : AssetDoc :=
            { aid := s.nextAssetId, productName := productName,
              productImage := productImage, productType := productType,
              productQuantity := productQuantity,
              availableQuantity := productQuantity,
              hrEmail := hrEmail, companyName := companyName }
          ({ code := 201, message := "Asset added successfully",
             insertedId := some s.nextAssetId },
           { s with assets := s.assets ++ [newAsset],
                    nextAssetId := s.nextAssetId + 1 })

def optFalsy (x : Option String) : Bool :=
  match x with
  | none => true
  | some v => v == ""

def optIntFalsy (x : Option Int) : Bool :=
  match x with
  | none => true
  | some v => v == 0

/-- The `$set` document built by `PATCH /assetcollection/:id` (index.js
1315-1328): name trimmed when supplied, image when supplied, and a
supplied quantity written to both quantity fields. -/
def applyAssetPatch (productName productImage : Option String)
    (productQuantity : Option Int) (a : AssetDoc) : AssetDoc :=
  let a := if optFalsy productName then a
    else { a with productName := (productName.getD "").trim }
  let a := if optFalsy productImage then a
    else { a with productImage := productImage.getD "" }
  match productQuantity with
  | some qty => { a with productQuantity := qty, availableQuantity := qty }
  | none => a

/-- `PATCH /assetcollection/:id` (index.js 1274-1354).  When a quantity is
supplied it must be non-negative and is written to `productQuantity` and
`availableQuantity` together. -/
def updateAsset (s : DB) (id : Nat) (productName productImage : Option String)
    (productQuantity : Option Int) (hrEmail : String) : Response × DB :=
  if hrEmail = "" then
    ({ code := 400, message := "hrEmail is required for authorization" }, s)
  else if optFalsy productName ∧ optIntFalsy productQuantity ∧ optFalsy productImage then
    ({ code := 400, message := "At least one field is required to update" }, s)
  else
    match s.assets.find? (assetById id) with
    | none => ({ code := 404, message := "Asset not found" }, s)
    | some asset =>
        if asset.hrEmail ≠ hrEmail then
          ({ code := 403, message := "Unauthorized" }, s)
        else
          match productQuantity with
          | some qty =>
              if qty < 0 then
                ({ code := 400, message := "productQuantity must be non-negative" }, s)
              else
                ({ code := 200, message := "Asset updated successfully" },
                 { s with assets := (updateFirst (assetById id)
                     (applyAssetPatch productName productImage (some qty)) s.assets) })
          | none =>
              ({ code := 200, message := "Asset updated successfully" },
               { s with assets := (updateFirst (assetById id)
                   (applyAssetPatch productName productImage none) s.assets) })

/-- `DELETE /assetcollection/:id` (index.js 1357-1417). -/
def deleteAsset (s : DB) (id : Nat) (hrEmail : String) : Response × DB :=
  if hrEmail = "" then
    ({ code := 400, message := "hrEmail is required" }, s)
  else
    match s.assets.find? (assetById id) with
    | none => ({ code := 404, message := "Asset not found" }, s)
    | some asset =>
        if asset.hrEmail ≠ hrEmail then
          ({ code := 403, message := "Unauthorized" }, s)
        else
          let activeRequests := s.requests.countP (activeRequestForAsset id)
          if activeRequests > 0 then
            ({ code := 409, message := "Cannot delete asset: active requests exist" }, s)
          else
            ({ code := 200, message := "Asset deleted successfully" },
             { s with assets := removeFirst (assetById id) s.assets })

/-- `POST /asset-requests` (index.js 1420-1474).  The stock check fires
before the duplicate-request check, and a previously rejected request for
the same (asset, requester) pair yields a 403 permanent block. -/
def createAssetRequest (s : DB) (assetId : Nat) (requesterEmail note : String) :
    Response × DB :=
  if assetId = 0 ∨ requesterEmail = "" then
    ({ code := 400, message := "Missing required fields" }, s)
  else
    match s.users.find? (hasEmail requesterEmail) with
    | none => ({ code := 403, message := "Only employees can request assets" }, s)
    | some user =>
        if user.role ≠ "EMPLOYEE" then
          ({ code := 403, message := "Only employees can request assets" }, s)
        else
          match s.assets.find? (assetById assetId) with
          | none => ({ code := 400, message := "Asset not found or out of stock" }, s)
          | some assetInfo =>
              if assetInfo.productQuantity ≤ 0 then
                ({ code := 400, message := "Asset not found or out of stock" }, s)
              else
                let insert : Response × DB :=
                  let requestDoc : RequestDoc :=
                    { rid := s.nextRequestId, assetId := assetId,
                      assetName := assetInfo.productName,
                      assetType := assetInfo.productType,
                      requesterName := user.name, requesterEmail := user.email,
                      hrEmail := assetInfo.hrEmail,
                      companyName := assetInfo.companyName,
                      approvalDate := none, rejectionDate := none,
                      requestStatus := "pending", note := note }
                  ({ code := 201, message := "Asset request submitted successfully",
                     insertedId := some s.nextRequestId },
                   { s with requests := s.requests ++ [requestDoc],
                            nextRequestId := s.nextRequestId + 1 })
                match s.requests.find? (requestForPair assetId requesterEmail) with
                | none => insert
                | some existing =>
                    if existing.requestStatus = "pending" then
                      ({ code := 409, message := "You already have a pending request" }, s)
                    else if existing.requestStatus = "approved" then
                      ({ code := 409, message := "This asset is already approved for you" }, s)
                    else if existing.requestStatus = "rejected" then
                      ({ code := 403,
                         message := "Your previous request was rejected. Cannot request again." }, s)
                    else insert

/-- `PATCH /asset-request/reject/:id` (index.js 1477-1500).  A missing
request, a non-pending request and an ownership mismatch are all folded
into one 400 response. -/
def rejectRequest (s : DB) (id : Nat) (hrEmail : String) : Response × DB :=
  if hrEmail = "" then
    ({ code := 400, message := "Invalid data" }, s)
  else
    match s.requests.find? (requestById id) with
    | none => ({ code := 400, message := "Cannot reject this request" }, s)
    | some request =>
        if request.requestStatus ≠ "pending" ∨ request.hrEmail ≠ hrEmail then
          ({ code := 400, message := "Cannot reject this request" }, s)
        else
          ({ code := 200, message := "Request rejected successfully" },
           { s with requests :=
               (updateFirst (requestById id)
                 (fun r => { r with requestStatus := "rejected",
                                    rejectionDate := some 0 }) s.requests) })

def decrementBoth (a : AssetDoc) : AssetDoc :=
  { a with productQuantity := a.productQuantity - 1,
           availableQuantity := a.availableQuantity - 1 }

def incrementBoth (a : AssetDoc) : AssetDoc :=
  { a with productQuantity := a.productQuantity + 1,
           availableQuantity := a.availableQuantity + 1 }

/-- `PATCH /asset-request/approve/:id` (index.js 1525-1612).  Order of
checks: pending request and ownership, stock (`productQuantity <= 0`),
affiliation lookup, quota (only for a new employee; the handler reads
`hrUser.currentEmployees` without a null check, so a missing HR account
throws and the catch block answers 500), then the conditional decrement
guarded by `productQuantity > 0`, the approval flip, the assignment
insert, and for a new employee the affiliation insert plus the
`currentEmployees` increment. -/
def approveRequest (s : DB) (id : Nat) (hrEmail : String) : Response × DB :=
  if hrEmail = "" then
    ({ code := 400, message := "Invalid data" }, s)
  else
    match s.requests.find? (pendingRequestById id) with
    | none => ({ code := 400, message := "Invalid request" }, s)
    | some request =>
        if request.hrEmail ≠ hrEmail then
          ({ code := 400, message := "Invalid request" }, s)
        else
          let hrUser? := s.users.find? (isHRWithEmail hrEmail)
          match s.assets.find? (assetById request.assetId) with
          | none => ({ code := 400, message := "Asset out of stock" }, s)
          | some asset =>
              if asset.productQuantity ≤ 0 then
                ({ code := 400, message := "Asset out of stock" }, s)
              else
                let isNewEmployee :=
                  (s.affiliations.find?
                    (activeAffiliation request.requesterEmail hrEmail)).isNone
                let proceed : Option UserDoc → Response × DB := fun hrUserForNew =>
                  if ¬s.assets.any (assetInStockById request.assetId) then
                    ({ code := 400, message := "Asset out of stock" }, s)
                  else
                    let s1 := { s with assets :=
                      (updateFirst (assetInStockById request.assetId)
                        decrementBoth s.assets) }
                    let s2 := { s1 with requests :=
                      (updateFirst (requestById id)
                        (fun r => { r with requestStatus := "approved",
                                           approvalDate := some 0 }) s1.requests) }
                    let newAssignment : AssignmentDoc :=
                      { sid := s.nextAssignId, assetId := request.assetId,
                        assetName := request.assetName,
                        assetImage := asset.productImage,
                        assetType := request.assetType,
                        employeeEmail := request.requesterEmail,
                        employeeName := request.requesterName,
                        hrEmail := request.hrEmail,
                        companyName := request.companyName,
                        returnDate := none, status := "assigned" }
                    let s3 := { s2 with
                      assignments := s2.assignments ++ [newAssignment],
                      nextAssignId := s2.nextAssignId + 1 }
                    match hrUserForNew with
                    | some hu =>
                        let newAffiliation : AffiliationDoc :=
                          { employeeEmail := request.requesterEmail,
                            employeeName := request.requesterName,
                            hrEmail := request.hrEmail,
                            companyName := request.companyName,
                            companyLogo := hu.companyLogo,
                            status := "active" }
                        let s4 := { s3 with
                          affiliations := s3.affiliations ++ [newAffiliation],
                          users := (updateFirst (hasEmail hrEmail)
                            (fun u => { u with currentEmployees :=
                              u.currentEmployees + 1 }) s3.users) }
                        ({ code := 200, message := "Request approved successfully" }, s4)
                    | none =>
                        ({ code := 200, message := "Request approved successfully" }, s3)
                if isNewEmployee then
                  match hrUser? with
                  | none => ({ code := 500, message := "Server error" }, s)
                  | some hrUser =>
                      if hrUser.currentEmployees ≥ hrUser.packageLimit then
                        ({ code := 403, message := "Employee limit reached" }, s)
                      else proceed (some hrUser)
                else proceed none

/-- One step of the `remove-employee` loop body (index.js 1834-1846):
restock the assignment's asset and mark the assignment returned. -/
def returnOne (s : DB) (a : AssignmentDoc) : DB :=
  { s with
    assets := updateFirst (assetById a.assetId) incrementBoth s.assets,
    assignments := (updateFirst (assignmentById a.sid)
      (fun x => { x with status := "returned", returnDate := some 0 }) s.assignments) }

/-- `PATCH /remove-employee` (index.js 1804-1863). -/
def removeEmployee (s : DB) (hrEmail employeeEmail : String) : Response × DB :=
  if hrEmail = "" ∨ employeeEmail = "" then
    ({ code := 400, message := "hrEmail and employeeEmail required" }, s)
  else if (s.users.find? (isHRWithEmail hrEmail)).isNone then
    ({ code := 403, message := "Unauthorized" }, s)
  else if ¬s.affiliations.any (activeAffiliation employeeEmail hrEmail) then
    ({ code := 404, message := "Employee not found in your team" }, s)
  else
    let s1 := { s with affiliations :=
      (updateFirst (activeAffiliation employeeEmail hrEmail)
        (fun a => { a with status := "inactive" }) s.affiliations) }
    let assigned := s1.assignments.filter (assignedForPair employeeEmail hrEmail)
    let s2 := assigned.foldl returnOne s1
    let s3 := { s2 with users :=
      (updateFirst (hasEmail hrEmail)
        (fun u => { u with currentEmployees := u.currentEmployees - 1 }) s2.users) }
    ({ code := 200, message := "Employee removed from team successfully",
       returnedAssets := some assigned.length }, s3)

/-- `PATCH /direct-assign` (index.js 1987-2071). -/
def directAssign (s : DB) (hrEmail employeeEmail : String) (assetId : Nat) :
    Response × DB :=
  if hrEmail = "" ∨ employeeEmail = "" ∨ assetId = 0 then
    ({ code := 400, message := "hrEmail, employeeEmail, and assetId are required" }, s)
  else if (s.users.find? (isHRWithEmail hrEmail)).isNone then
    ({ code := 403, message := "Unauthorized" }, s)
  else
    match s.affiliations.find? (activeAffiliation employeeEmail hrEmail) with
    | none => ({ code := 403, message := "Employee not affiliated with your company" }, s)
    | some affiliation =>
        match s.assets.find? (fun a => a.aid == assetId && a.hrEmail == hrEmail) with
        | none => ({ code := 400, message := "Asset not available or out of stock" }, s)
        | some asset =>
            if asset.productQuantity ≤ 0 then
              ({ code := 400, message := "Asset not available or out of stock" }, s)
            else if (s.assignments.find?
                (assignedAssetToEmployee assetId employeeEmail)).isSome then
              ({ code := 409,
                 message := "This asset is already assigned to this employee" }, s)
            else if ¬s.assets.any (assetInStockById assetId) then
              ({ code := 400, message := "Asset out of stock" }, s)
            else
              let newAssignment : AssignmentDoc :=
                { sid := s.nextAssignId, assetId := assetId,
                  assetName := asset.productName, assetImage := asset.productImage,
                  assetType := asset.productType, employeeEmail := employeeEmail,
                  employeeName := affiliation.employeeName, hrEmail := hrEmail,
                  companyName := asset.companyName,
                  returnDate := none, status := "assigned" }
              ({ code := 200, message := "Asset assigned directly to employee" },
               { s with
                 assets := (updateFirst (assetInStockById assetId)
                   decrementBoth s.assets),
                 assignments := s.assignments ++ [newAssignment],
                 nextAssignId := s.nextAssignId + 1 })

/-- The `$set` document built by `PATCH /user/:email` (index.js
1677-1687): name trimmed when supplied, date of birth when supplied, and
the photo routed to `photo` for employees and `companyLogo` for HR; never
touches role or the quota fields. -/
def applyProfilePatch (name dob photo : Option String) (photoApplies : Bool)
    (u : UserDoc) : UserDoc :=
  let u := if optFalsy name then u
    else { u with name := (name.getD "").trim }
  let u := if optFalsy dob then u
    else { u with dateOfBirth := dob.getD "" }
  if ¬photoApplies then u
  else if u.role = "EMPLOYEE" then { u with photo := photo.getD "" }
  else { u with companyLogo := photo.getD "" }

/-- `PATCH /user/:email` (index.js 1656-1721): profile edits (name, date
of birth, photo or company logo); never touches role or the quota
fields. -/
def updateProfile (s : DB) (email : String) (name dob photo : Option String) :
    Response × DB :=
  if email = "" then
    ({ code := 400, message := "Email is required" }, s)
  else
    match s.users.find? (hasEmail email) with
    | none => ({ code := 404, message := "User not found" }, s)
    | some user =>
        let photoApplies := ¬optFalsy photo ∧ (user.role = "EMPLOYEE" ∨ user.role = "HR")
        if optFalsy name ∧ optFalsy dob ∧ ¬photoApplies then
          ({ code := 400, message := "No fields to update" }, s)
        else
          ({ code := 200, message := "Profile updated successfully" },
           { s with users := (updateFirst (hasEmail email)
               (applyProfilePatch name dob photo (decide photoApplies)) s.users) })

/-! ### Operations and traces -/

/-- One state-mutating API call. -/
inductive Op where
  | createUser (name email role companyName companyLogo photo dob : String)
  | addAsset (productName productImage productType : String)
      (productQuantity : Int) (hrEmail companyName : String)
  | updateAsset (id : Nat) (productName productImage : Option String)
      (productQuantity : Option Int) (hrEmail : String)
  | deleteAsset (id : Nat) (hrEmail : String)
  | createAssetRequest (assetId : Nat) (requesterEmail note : String)
  | rejectRequest (id : Nat) (hrEmail : String)
  | approveRequest (id : Nat) (hrEmail : String)
  | removeEmployee (hrEmail employeeEmail : String)
  | directAssign (hrEmail employeeEmail : String) (assetId : Nat)
  | updateProfile (email : String) (name dob photo : Option String)
  deriving Repr, DecidableEq

/-- Dispatch one operation. -/
def applyOp (s : DB) : Op → Response × DB
  | .createUser n e r cn cl p d => createUser s n e r cn cl p d
  | .addAsset pn pi pt q h c => addAsset s pn pi pt q h c
  | .updateAsset i pn pi q h => updateAsset s i pn pi q h
  | .deleteAsset i h => deleteAsset s i h
  | .createAssetRequest a e nt => createAssetRequest s a e nt
  | .rejectRequest i h => rejectRequest s i h
  | .approveRequest i h => approveRequest s i h
  | .removeEmployee h e => removeEmployee s h e
  | .directAssign h e a => directAssign s h e a
  | .updateProfile e n d p => updateProfile s e n d p

/-- Run a sequence of operations, keeping only the final state. -/
def runOps (s : DB) : List Op → DB
  | [] => s
  | op :: rest => runOps (applyOp s op).2 rest

/-- States the server can actually be in: those produced by some sequence
of API calls from the empty database. -/
def Reachable (s : DB) : Prop := ∃ ops : List Op, runOps initDB ops = s

/-! ### Generic lemmas about the Mongo-style list primitives -/

theorem mem_updateFirst {p : α → Bool} {f : α → α} {l : List α} {x : α}
    (h : x ∈ updateFirst p f l) : x ∈ l ∨ ∃ y ∈ l, p y = true ∧ x = f y := by
  induction l with
  | nil => exact absurd h (by simp [updateFirst])
  | cons z zs ih =>
      by_cases hz : p z
      · rw [updateFirst, if_pos hz] at h
        rcases List.mem_cons.1 h with h1 | h1
        · exact Or.inr ⟨z, List.mem_cons_self _ _, hz, h1⟩
        · exact Or.inl (List.mem_cons_of_mem _ h1)
      · rw [updateFirst, if_neg hz] at h
        rcases List.mem_cons.1 h with h1 | h1
        · exact Or.inl (h1 ▸ List.mem_cons_self _ _)
        · rcases ih h1 with h2 | ⟨y, hy, hpy, hxy⟩
          · exact Or.inl (List.mem_cons_of_mem _ h2)
          · exact Or.inr ⟨y, List.mem_cons_of_mem _ hy, hpy, hxy⟩

theorem updateFirst_pres {p : α → Bool} {f : α → α} {l : List α}
    {P : α → Prop} (hall : ∀ x ∈ l, P x) (hf : ∀ x ∈ l, P x → P (f x)) :
    ∀ x ∈ updateFirst p f l, P x := by
  intro x hx
  rcases mem_updateFirst hx with h | ⟨y, hy, _, hxy⟩
  · exact hall x h
  · exact hxy ▸ hf y hy (hall y hy)

theorem map_updateFirst {p : α → Bool} {f : α → α} {key : α → β}
    (hkey : ∀ x, key (f x) = key x) (l : List α) :
    (updateFirst p f l).map key = l.map key := by
  induction l with
  | nil => rfl
  | cons z zs ih =>
      by_cases hz : p z
      · rw [updateFirst, if_pos hz, List.map_cons, List.map_cons, hkey]
      · rw [updateFirst, if_neg hz, List.map_cons, List.map_cons, ih]

theorem length_updateFirst (p : α → Bool) (f : α → α) (l : List α) :
    (updateFirst p f l).length = l.length := by
  induction l with
  | nil => rfl
  | cons z zs ih =>
      by_cases hz : p z
      · rw [updateFirst, if_pos hz, List.length_cons, List.length_cons]
      · rw [updateFirst, if_neg hz, List.length_cons, List.length_cons, ih]

theorem updateFirst_of_all_neg {p : α → Bool} {f : α → α} {l : List α}
    (h : ∀ x ∈ l, p x = false) : updateFirst p f l = l := by
  induction l with
  | nil => rfl
  | cons z zs ih =>
      have hz : ¬(p z = true) := by
        rw [h z (List.mem_cons_self _ _)]; exact Bool.false_ne_true
      rw [updateFirst, if_neg hz, ih (fun x hx => h x (List.mem_cons_of_mem _ hx))]

/-- When the searched predicate decides a key equation, the keys are
distinct, and `f` preserves keys, every element of the updated list is an
untouched original with a different key, or the image of the unique
original carrying the key. -/
theorem mem_updateFirst_key {p : α → Bool} {f : α → α} {key : α → β} {k : β}
    {l : List α}
    (hn : (l.map key).Nodup)
    (hp : ∀ x, p x = true ↔ key x = k)
    (hx : x ∈ updateFirst p f l) :
    (x ∈ l ∧ key x ≠ k) ∨ ∃ y ∈ l, key y = k ∧ x = f y := by
  induction l with
  | nil => exact absurd hx (by simp [updateFirst])
  | cons z zs ih =>
      rw [List.map_cons, List.nodup_cons] at hn
      by_cases hz : p z
      · rw [updateFirst, if_pos hz] at hx
        rcases List.mem_cons.1 hx with hx1 | hx1
        · exact Or.inr ⟨z, List.mem_cons_self _ _, (hp z).1 hz, hx1⟩
        · left
          refine ⟨List.mem_cons_of_mem _ hx1, ?_⟩
          intro hk
          have : key x ∈ zs.map key := List.mem_map_of_mem key hx1
          rw [hk, ← (hp z).1 hz] at this
          exact hn.1 this
      · rw [updateFirst, if_neg hz] at hx
        rcases List.mem_cons.1 hx with hx1 | hx1
        · left
          refine ⟨hx1 ▸ List.mem_cons_self _ _, ?_⟩
          intro hk
          exact hz (hx1 ▸ (hp x).2 hk)
        · rcases ih hn.2 hx1 with ⟨h1, h2⟩ | ⟨y, hy, hky, hxy⟩
          · exact Or.inl ⟨List.mem_cons_of_mem _ h1, h2⟩
          · exact Or.inr ⟨y, List.mem_cons_of_mem _ hy, hky, hxy⟩

theorem updateFirst_mem_or {p : α → Bool} {f : α → α} {l : List α} {x : α}
    (hx : x ∈ l) : x ∈ updateFirst p f l ∨ f x ∈ updateFirst p f l := by
  induction l with
  | nil => exact absurd hx (by simp)
  | cons z zs ih =>
      by_cases hz : p z
      · rcases List.mem_cons.1 hx with hx1 | hx1
        · right; rw [hx1, updateFirst, if_pos (hx1 ▸ hz)]
          exact List.mem_cons_self _ _
        · left; rw [updateFirst, if_pos hz]
          exact List.mem_cons_of_mem _ hx1
      · rcases List.mem_cons.1 hx with hx1 | hx1
        · left; rw [updateFirst, if_neg (hx1 ▸ hz)]
          exact hx1 ▸ List.mem_cons_self _ _
        · rcases ih hx1 with h | h
          · left; rw [updateFirst, if_neg hz]
            exact List.mem_cons_of_mem _ h
          · right; rw [updateFirst, if_neg hz]
            exact List.mem_cons_of_mem _ h

theorem countP_updateFirst_congr {p : α → Bool} {f : α → α} {q : α → Bool}
    {l : List α} (h : ∀ x ∈ l, p x = true → q (f x) = q x) :
    (updateFirst p f l).countP q = l.countP q := by
  induction l with
  | nil => rfl
  | cons z zs ih =>
      by_cases hz : p z
      · rw [updateFirst, if_pos hz, List.countP_cons, List.countP_cons,
          h z (List.mem_cons_self _ _) hz]
      · rw [updateFirst, if_neg hz, List.countP_cons, List.countP_cons,
          ih (fun x hx hp => h x (List.mem_cons_of_mem _ hx) hp)]

theorem countP_updateFirst_flip {p : α → Bool} {f : α → α} {q : α → Bool}
    {l : List α} (hany : l.any p = true)
    (hq : ∀ x ∈ l, p x = true → q x = true)
    (hfq : ∀ x ∈ l, p x = true → q (f x) = false) :
    (updateFirst p f l).countP q + 1 = l.countP q := by
  induction l with
  | nil => exact absurd hany (by simp)
  | cons z zs ih =>
      by_cases hz : p z
      · rw [updateFirst, if_pos hz, List.countP_cons, List.countP_cons,
          hfq z (List.mem_cons_self _ _) hz, hq z (List.mem_cons_self _ _) hz]
        simp
      · have hany' : zs.any p = true := by
          rcases List.any_eq_true.1 hany with ⟨y, hy, hpy⟩
          rcases List.mem_cons.1 hy with h1 | h1
          · exact absurd (h1 ▸ hpy) hz
          · exact List.any_eq_true.2 ⟨y, h1, hpy⟩
        rw [updateFirst, if_neg hz, List.countP_cons, List.countP_cons]
        have := ih hany' (fun x hx hp => hq x (List.mem_cons_of_mem _ hx) hp)
          (fun x hx hp => hfq x (List.mem_cons_of_mem _ hx) hp)
        omega

theorem removeFirst_sublist (p : α → Bool) (l : List α) :
    (removeFirst p l).Sublist l := by
  induction l with
  | nil => rw [removeFirst]
  | cons z zs ih =>
      by_cases hz : p z
      · rw [removeFirst, if_pos hz]
        exact List.sublist_cons_of_sublist _ (List.Sublist.refl _)
      · rw [removeFirst, if_neg hz]
        exact List.Sublist.cons₂ _ ih

theorem mem_removeFirst {p : α → Bool} {l : List α} {x : α}
    (h : x ∈ removeFirst p l) : x ∈ l :=
  (removeFirst_sublist p l).mem h

theorem countP_eq_zero_of_find?_none {p : α → Bool} {l : List α}
    (h : l.find? p = none) : l.countP p = 0 := by
  rw [List.countP_eq_zero]
  intro x hx
  exact List.find?_eq_none.1 h x hx

theorem find?_isSome_of_mem {p : α → Bool} {l : List α} {x : α}
    (hx : x ∈ l) (hp : p x = true) : (l.find? p).isSome := by
  rw [List.find?_isSome]
  exact ⟨x, hx, hp⟩

theorem countP_updateFirst_le {p : α → Bool} {f : α → α} {q : α → Bool}
    {l : List α} (h : ∀ x ∈ l, p x = true → q (f x) = true → q x = true) :
    (updateFirst p f l).countP q ≤ l.countP q := by
  induction l with
  | nil => exact Nat.le_refl _
  | cons z zs ih =>
      by_cases hz : p z
      · rw [updateFirst, if_pos hz, List.countP_cons, List.countP_cons]
        have : (if q (f z) = true then 1 else 0) ≤ (if q z = true then 1 else 0) := by
          by_cases hq : q (f z) = true
          · rw [if_pos hq, if_pos (h z (List.mem_cons_self _ _) hz hq)]
          · rw [if_neg hq]
            exact Nat.zero_le _
        omega
      · rw [updateFirst, if_neg hz, List.countP_cons, List.countP_cons]
        have := ih (fun x hx hp => h x (List.mem_cons_of_mem _ hx) hp)
        omega

/-- With pairwise-distinct keys, a search whose predicate pins down the key
of a known member finds exactly that member. -/
theorem find?_eq_of_key {p : α → Bool} {key : α → β} {l : List α} {x : α}
    (hn : (l.map key).Nodup) (hx : x ∈ l) (hpx : p x = true)
    (hkey : ∀ y ∈ l, p y = true → key y = key x) :
    l.find? p = some x := by
  cases hfind : l.find? p with
  | none => exact absurd (List.find?_eq_none.1 hfind x hx) (by simp [hpx])
  | some y =>
      have hym : y ∈ l := List.mem_of_find?_eq_some hfind
      have hpy : p y = true := List.find?_some hfind
      have : y = x :=
        List.inj_on_of_nodup_map hn hym hx (hkey y hym hpy)
      rw [this]

/-! ### State invariants maintained by every handler -/

/-- Some user document carries this email with the HR role. -/
def hasHR (users : List UserDoc) (e : String) : Prop :=
  ∃ u ∈ users, u.email = e ∧ u.role = "HR"

/-- Number of active affiliations filed under this HR email. -/
def activeCount (affs : List AffiliationDoc) (e : String) : Nat :=
  affs.countP (fun a => a.hrEmail == e && a.status == "active")

/-- Number of request documents for one (asset, requester) pair. -/
def pairCount (reqs : List RequestDoc) (assetId : Nat) (e : String) : Nat :=
  reqs.countP (fun r => r.assetId == assetId && r.requesterEmail == e)

/-- The conjunction of structural facts that hold in every reachable
database state. -/
structure Inv (s : DB) : Prop where
  usersNodup : (s.users.map UserDoc.email).Nodup
  assetsNodup : (s.assets.map AssetDoc.aid).Nodup
  assetsLt : ∀ a ∈ s.assets, a.aid < s.nextAssetId
  requestsNodup : (s.requests.map RequestDoc.rid).Nodup
  requestsLt : ∀ r ∈ s.requests, r.rid < s.nextRequestId
  assignsNodup : (s.assignments.map AssignmentDoc.sid).Nodup
  assignsLt : ∀ a ∈ s.assignments, a.sid < s.nextAssignId
  lockstep : ∀ a ∈ s.assets, a.availableQuantity = a.productQuantity
  counter : ∀ u ∈ s.users,
    u.currentEmployees = (activeCount s.affiliations u.email : Int)
  affilHR : ∀ a ∈ s.affiliations, hasHR s.users a.hrEmail
  assetHR : ∀ a ∈ s.assets, hasHR s.users a.hrEmail
  requestHR : ∀ r ∈ s.requests, hasHR s.users r.hrEmail
  statusWF : ∀ r ∈ s.requests, r.requestStatus = "pending" ∨
    r.requestStatus = "approved" ∨ r.requestStatus = "rejected"
  pairUnique : ∀ assetId e, pairCount s.requests assetId e ≤ 1
  activeUnique : ∀ e h, s.affiliations.countP (activeAffiliation e h) ≤ 1

theorem inv_init : Inv initDB := by
  constructor <;> simp [initDB, pairCount, activeCount]

/-! Small facts about the query predicates. -/

theorem hasEmail_iff {e : String} {u : UserDoc} :
    hasEmail e u = true ↔ u.email = e := by
  simp [hasEmail]

theorem isHRWithEmail_iff {e : String} {u : UserDoc} :
    isHRWithEmail e u = true ↔ u.email = e ∧ u.role = "HR" := by
  simp [isHRWithEmail]

theorem assetById_iff {i : Nat} {a : AssetDoc} :
    assetById i a = true ↔ a.aid = i := by
  simp [assetById]

theorem requestById_iff {i : Nat} {r : RequestDoc} :
    requestById i r = true ↔ r.rid = i := by
  simp [requestById]

theorem assignmentById_iff {i : Nat} {a : AssignmentDoc} :
    assignmentById i a = true ↔ a.sid = i := by
  simp [assignmentById]

theorem activeAffiliation_iff {e h : String} {a : AffiliationDoc} :
    activeAffiliation e h a = true ↔
      a.employeeEmail = e ∧ a.hrEmail = h ∧ a.status = "active" := by
  simp [activeAffiliation, and_assoc]

theorem hasHR_append {l : List UserDoc} {l2 : List UserDoc} {e : String}
    (h : hasHR l e) : hasHR (l ++ l2) e := by
  obtain ⟨u, hu, he, hr⟩ := h
  exact ⟨u, List.mem_append_left _ hu, he, hr⟩

theorem hasHR_of_mem {l : List UserDoc} {u : UserDoc}
    (hu : u ∈ l) (he : u.email = e) (hr : u.role = "HR") : hasHR l e :=
  ⟨u, hu, he, hr⟩

theorem hasHR_updateFirst {p : UserDoc → Bool} {f : UserDoc → UserDoc}
    {l : List UserDoc} {e : String}
    (hf : ∀ u, (f u).email = u.email ∧ (f u).role = u.role)
    (h : hasHR l e) : hasHR (updateFirst p f l) e := by
  obtain ⟨u, hu, he, hr⟩ := h
  rcases updateFirst_mem_or (p := p) (f := f) hu with h1 | h1
  · exact ⟨u, h1, he, hr⟩
  · exact ⟨f u, h1, (hf u).1.trans he, (hf u).2.trans hr⟩

/-! Facts about the patch builders. -/

theorem mkUserDoc_email (n e r cn cl ph d : String) :
    (mkUserDoc n e r cn cl ph d).email = e := by
  simp only [mkUserDoc]
  split_ifs <;> rfl

theorem mkUserDoc_cur (n e r cn cl ph d : String) :
    (mkUserDoc n e r cn cl ph d).currentEmployees = 0 := by
  simp only [mkUserDoc]
  split_ifs <;> rfl

theorem applyAssetPatch_aid (n i : Option String) (q : Option Int) (a : AssetDoc) :
    (applyAssetPatch n i q a).aid = a.aid := by
  simp only [applyAssetPatch]
  cases q <;> split_ifs <;> rfl

theorem applyAssetPatch_hrEmail (n i : Option String) (q : Option Int) (a : AssetDoc) :
    (applyAssetPatch n i q a).hrEmail = a.hrEmail := by
  simp only [applyAssetPatch]
  cases q <;> split_ifs <;> rfl

theorem applyAssetPatch_lockstep (n i : Option String) (q : Option Int) (a : AssetDoc)
    (h : a.availableQuantity = a.productQuantity) :
    (applyAssetPatch n i q a).availableQuantity =
      (applyAssetPatch n i q a).productQuantity := by
  simp only [applyAssetPatch]
  cases q <;> split_ifs <;> simp [h]

theorem applyProfilePatch_email (n d p : Option String) (b : Bool) (u : UserDoc) :
    (applyProfilePatch n d p b u).email = u.email := by
  simp only [applyProfilePatch]
  split_ifs <;> rfl

theorem applyProfilePatch_role (n d p : Option String) (b : Bool) (u : UserDoc) :
    (applyProfilePatch n d p b u).role = u.role := by
  simp only [applyProfilePatch]
  split_ifs <;> rfl

theorem applyProfilePatch_cur (n d p : Option String) (b : Bool) (u : UserDoc) :
    (applyProfilePatch n d p b u).currentEmployees = u.currentEmployees := by
  simp only [applyProfilePatch]
  split_ifs <;> rfl

theorem all_false_of_not_isSome {p : α → Bool} {l : List α}
    (h : ¬(l.find? p).isSome = true) : ∀ x ∈ l, p x = false := by
  intro x hx
  cases hf : l.find? p with
  | some y => rw [hf] at h; exact absurd rfl h
  | none =>
      have := List.find?_eq_none.1 hf x hx
      exact Bool.not_eq_true _ ▸ Bool.of_not_eq_true this

/-! ### Invariant preservation, one lemma per handler -/

theorem inv_createUser {s : DB} (hI : Inv s) (n e r cn cl ph d : String) :
    Inv (createUser s n e r cn cl ph d).2 := by
  unfold createUser
  split
  · exact hI
  split
  · exact hI
  next hfind =>
  have hfresh : ∀ u ∈ s.users, u.email ≠ e := by
    intro u hu he
    have := all_false_of_not_isSome hfind u hu
    rw [hasEmail] at this
    simp [he] at this
  set nu := mkUserDoc n e r cn cl ph d with hnu
  refine ⟨?_, hI.assetsNodup, hI.assetsLt, hI.requestsNodup, hI.requestsLt,
    hI.assignsNodup, hI.assignsLt, hI.lockstep, ?_, ?_, ?_, ?_, hI.statusWF,
    hI.pairUnique, hI.activeUnique⟩
  · rw [List.map_append, List.nodup_append]
    refine ⟨hI.usersNodup, by simp, ?_⟩
    intro x hx hx2
    simp only [List.map_cons, List.map_nil, List.mem_singleton] at hx2
    obtain ⟨u, hu, hue⟩ := List.mem_map.1 hx
    exact hfresh u hu (hue.trans (hx2.trans (mkUserDoc_email n e r cn cl ph d)))
  · intro u hu
    rcases List.mem_append.1 hu with hu1 | hu1
    · exact hI.counter u hu1
    · rw [List.mem_singleton.1 hu1, mkUserDoc_cur, mkUserDoc_email]
      have : activeCount s.affiliations e = 0 := by
        rw [activeCount, List.countP_eq_zero]
        intro a ha
        obtain ⟨w, hw, hwe, _⟩ := hI.affilHR a ha
        have : a.hrEmail ≠ e := fun hh => hfresh w hw (hwe.trans hh)
        simp [this]
      rw [this]
      rfl
  · exact fun a ha => hasHR_append (hI.affilHR a ha)
  · exact fun a ha => hasHR_append (hI.assetHR a ha)
  · exact fun r hr => hasHR_append (hI.requestHR r hr)

theorem inv_addAsset {s : DB} (hI : Inv s) (pn pi pt : String) (q : Int)
    (h c : String) : Inv (addAsset s pn pi pt q h c).2 := by
  unfold addAsset
  split
  · exact hI
  split
  · exact hI
  split
  · exact hI
  next user hf =>
  split
  · exact hI
  have huser : user ∈ s.users := List.mem_of_find?_eq_some hf
  have hup : isHRWithEmail h user = true := List.find?_some hf
  rw [isHRWithEmail_iff] at hup
  dsimp only
  refine ⟨hI.usersNodup, ?_, ?_, hI.requestsNodup, hI.requestsLt,
    hI.assignsNodup, hI.assignsLt, ?_, hI.counter, hI.affilHR, ?_,
    hI.requestHR, hI.statusWF, hI.pairUnique, hI.activeUnique⟩
  · rw [List.map_append, List.nodup_append]
    refine ⟨hI.assetsNodup, by simp, ?_⟩
    intro x hx hx2
    simp only [List.map_cons, List.map_nil, List.mem_singleton] at hx2
    obtain ⟨a, ha, hae⟩ := List.mem_map.1 hx
    have := hI.assetsLt a ha
    omega
  · intro a ha
    show a.aid < s.nextAssetId + 1
    rcases List.mem_append.1 ha with ha1 | ha1
    · have := hI.assetsLt a ha1
      omega
    · rw [List.mem_singleton.1 ha1]
      exact Nat.lt_succ_self _
  · intro a ha
    rcases List.mem_append.1 ha with ha1 | ha1
    · exact hI.lockstep a ha1
    · rw [List.mem_singleton.1 ha1]
  · intro a ha
    rcases List.mem_append.1 ha with ha1 | ha1
    · exact hI.assetHR a ha1
    · rw [List.mem_singleton.1 ha1]
      exact hasHR_of_mem huser hup.1 hup.2

theorem inv_updateAsset {s : DB} (hI : Inv s) (id : Nat)
    (pn pi : Option String) (q : Option Int) (h : String) :
    Inv (updateAsset s id pn pi q h).2 := by
  have main : ∀ q', Inv ({ s with assets :=
      (updateFirst (assetById id) (applyAssetPatch pn pi q') s.assets) }) := by
    intro q'
    refine ⟨hI.usersNodup, ?_, ?_, hI.requestsNodup, hI.requestsLt,
      hI.assignsNodup, hI.assignsLt, ?_, hI.counter, hI.affilHR, ?_,
      hI.requestHR, hI.statusWF, hI.pairUnique, hI.activeUnique⟩
    · rw [map_updateFirst (applyAssetPatch_aid pn pi q')]
      exact hI.assetsNodup
    · exact updateFirst_pres hI.assetsLt
        (fun a _ ha => (applyAssetPatch_aid pn pi q' a) ▸ ha)
    · exact updateFirst_pres hI.lockstep
        (fun a _ ha => applyAssetPatch_lockstep pn pi q' a ha)
    · exact updateFirst_pres hI.assetHR
        (fun a _ ha => (applyAssetPatch_hrEmail pn pi q' a) ▸ ha)
  unfold updateAsset
  split
  · exact hI
  split
  · exact hI
  split
  · exact hI
  next asset hf =>
  split
  · exact hI
  split
  · split
    · exact hI
    · exact main _
  · exact main none

theorem inv_deleteAsset {s : DB} (hI : Inv s) (id : Nat) (h : String) :
    Inv (deleteAsset s id h).2 := by
  unfold deleteAsset
  split
  · exact hI
  split
  · exact hI
  next asset hf =>
  split
  · exact hI
  dsimp only
  split
  · exact hI
  refine ⟨hI.usersNodup, ?_, ?_, hI.requestsNodup, hI.requestsLt,
    hI.assignsNodup, hI.assignsLt, ?_, hI.counter, hI.affilHR, ?_,
    hI.requestHR, hI.statusWF, hI.pairUnique, hI.activeUnique⟩
  · exact hI.assetsNodup.sublist ((removeFirst_sublist _ _).map _)
  · exact fun a ha => hI.assetsLt a (mem_removeFirst ha)
  · exact fun a ha => hI.lockstep a (mem_removeFirst ha)
  · exact fun a ha => hI.assetHR a (mem_removeFirst ha)

theorem inv_rejectRequest {s : DB} (hI : Inv s) (id : Nat) (h : String) :
    Inv (rejectRequest s id h).2 := by
  unfold rejectRequest
  split
  · exact hI
  split
  · exact hI
  next request hf =>
  split
  · exact hI
  have hmap := @map_updateFirst RequestDoc Nat (requestById id)
    (fun r => { r with requestStatus := "rejected", rejectionDate := some 0 })
    RequestDoc.rid (fun r => rfl) s.requests
  refine ⟨hI.usersNodup, hI.assetsNodup, hI.assetsLt, ?_, ?_,
    hI.assignsNodup, hI.assignsLt, hI.lockstep, hI.counter, hI.affilHR,
    hI.assetHR, ?_, ?_, ?_, hI.activeUnique⟩
  · rw [hmap]
    exact hI.requestsNodup
  · exact updateFirst_pres hI.requestsLt (fun r _ hr => hr)
  · exact updateFirst_pres hI.requestHR (fun r _ hr => hr)
  · exact updateFirst_pres hI.statusWF (fun r _ _ => Or.inr (Or.inr rfl))
  · intro aid e
    have hcount := @countP_updateFirst_congr RequestDoc (requestById id)
      (fun r => { r with requestStatus := "rejected", rejectionDate := some 0 })
      (fun r => r.assetId == aid && r.requesterEmail == e)
      s.requests (fun r _ _ => rfl)
    rw [pairCount, hcount]
    exact hI.pairUnique aid e

theorem inv_updateProfile {s : DB} (hI : Inv s) (e : String)
    (n d p : Option String) : Inv (updateProfile s e n d p).2 := by
  unfold updateProfile
  split
  · exact hI
  split
  · exact hI
  next user hf =>
  dsimp only
  split
  · exact hI
  set f := applyProfilePatch n d p _ with hfdef
  have hid : ∀ u : UserDoc, (f u).email = u.email ∧ (f u).role = u.role :=
    fun u => ⟨applyProfilePatch_email _ _ _ _ u, applyProfilePatch_role _ _ _ _ u⟩
  refine ⟨?_, hI.assetsNodup, hI.assetsLt, hI.requestsNodup, hI.requestsLt,
    hI.assignsNodup, hI.assignsLt, hI.lockstep, ?_, ?_, ?_, ?_, hI.statusWF,
    hI.pairUnique, hI.activeUnique⟩
  · rw [map_updateFirst (fun u => (hid u).1)]
    exact hI.usersNodup
  · intro u hu
    rcases mem_updateFirst hu with h1 | ⟨y, hy, _, hxy⟩
    · exact hI.counter u h1
    · rw [hxy, applyProfilePatch_cur, (hid y).1]
      exact hI.counter y hy
  · exact fun a ha => hasHR_updateFirst hid (hI.affilHR a ha)
  · exact fun a ha => hasHR_updateFirst hid (hI.assetHR a ha)
  · exact fun r hr => hasHR_updateFirst hid (hI.requestHR r hr)

theorem inv_createAssetRequest {s : DB} (hI : Inv s) (assetId : Nat)
    (e nt : String) : Inv (createAssetRequest s assetId e nt).2 := by
  unfold createAssetRequest
  split
  · exact hI
  split
  · exact hI
  next user hfu =>
  split
  · exact hI
  split
  · exact hI
  next assetInfo hfa =>
  split
  · exact hI
  next hstock =>
  have huser : user ∈ s.users := List.mem_of_find?_eq_some hfu
  have hue : user.email = e := hasEmail_iff.1 (List.find?_some hfu)
  have hasset : assetInfo ∈ s.assets := List.mem_of_find?_eq_some hfa
  have main : ∀ newReq : RequestDoc, newReq.rid = s.nextRequestId →
      newReq.assetId = assetId → newReq.requesterEmail = user.email →
      newReq.hrEmail = assetInfo.hrEmail → newReq.requestStatus = "pending" →
      (∀ r ∈ s.requests, requestForPair assetId e r = false) →
      Inv ({ s with
             requests := s.requests ++ [newReq],
             nextRequestId := s.nextRequestId + 1 }) := by
    intro newReq hnr hna hnq hnh hns hall
    have hzero : s.requests.countP
        (fun r => r.assetId == assetId && r.requesterEmail == e) = 0 := by
      rw [List.countP_eq_zero]
      intro r hr hpred
      have h1 := hall r hr
      rcases hI.statusWF r hr with hs | hs | hs <;>
        rw [requestForPair, hs] at h1 <;> simp at h1 hpred <;>
        exact absurd hpred.2 (h1 hpred.1)
    refine ⟨hI.usersNodup, hI.assetsNodup, hI.assetsLt, ?_, ?_,
      hI.assignsNodup, hI.assignsLt, hI.lockstep, hI.counter, hI.affilHR,
      hI.assetHR, ?_, ?_, ?_, hI.activeUnique⟩
    · rw [List.map_append, List.nodup_append]
      refine ⟨hI.requestsNodup, by simp, ?_⟩
      intro x hx hx2
      simp only [List.map_cons, List.map_nil, List.mem_singleton] at hx2
      obtain ⟨r, hr, hre⟩ := List.mem_map.1 hx
      have := hI.requestsLt r hr
      rw [hx2, hnr] at hre
      omega
    · intro r hr
      show r.rid < s.nextRequestId + 1
      rcases List.mem_append.1 hr with hr1 | hr1
      · have := hI.requestsLt r hr1
        omega
      · rw [List.mem_singleton.1 hr1, hnr]
        exact Nat.lt_succ_self _
    · intro r hr
      rcases List.mem_append.1 hr with hr1 | hr1
      · exact hI.requestHR r hr1
      · rw [List.mem_singleton.1 hr1, hnh]
        exact hI.assetHR assetInfo hasset
    · intro r hr
      rcases List.mem_append.1 hr with hr1 | hr1
      · exact hI.statusWF r hr1
      · rw [List.mem_singleton.1 hr1]
        exact Or.inl hns
    · intro aid' e'
      rw [pairCount, List.countP_append]
      by_cases hm : aid' = assetId ∧ e' = user.email
      · have h0 : s.requests.countP
            (fun r => r.assetId == aid' && r.requesterEmail == e') = 0 := by
          rw [hm.1, hm.2, hue]
          exact hzero
        rw [h0]
        have h2 : List.countP
            (fun r => r.assetId == aid' && r.requesterEmail == e') [newReq] ≤ 1 :=
          le_trans (List.countP_le_length _) (by simp)
        omega
      · have h1 : List.countP
            (fun r => r.assetId == aid' && r.requesterEmail == e') [newReq] = 0 := by
          rw [List.countP_eq_zero]
          intro r hr
          rw [List.mem_singleton.1 hr]
          simp only [Bool.and_eq_true, beq_iff_eq, not_and]
          intro ha he
          exact hm ⟨by rw [← hna, ha], by rw [← hnq, he]⟩
        rw [h1]
        have := hI.pairUnique aid' e'
        rw [pairCount] at this
        omega
  dsimp only
  split
  · next hnone =>
      refine main _ rfl rfl rfl rfl rfl ?_
      intro r hr
      exact Bool.not_eq_true _ ▸ Bool.of_not_eq_true (List.find?_eq_none.1 hnone r hr)
  next existing hex =>
  split
  · exact hI
  split
  · exact hI
  split
  · exact hI
  next hnp hna hnr =>
  exfalso
  have := List.find?_some hex
  rw [requestForPair, Bool.and_eq_true, Bool.and_eq_true] at this
  rcases this with ⟨-, hst⟩
  simp only [Bool.or_eq_true, beq_iff_eq] at hst
  rcases hst with (h1 | h1) | h1
  · exact hnp h1
  · exact hna h1
  · exact hnr h1

theorem inv_approveRequest {s : DB} (hI : Inv s) (id : Nat) (h : String) :
    Inv (approveRequest s id h).2 := by
  unfold approveRequest
  split
  · exact hI
  split
  · exact hI
  next request hfr =>
  split
  · exact hI
  next hmatch =>
  have hreq : request ∈ s.requests := List.mem_of_find?_eq_some hfr
  have hrEq : request.hrEmail = h := not_not.1 hmatch
  dsimp only
  split
  · exact hI
  next asset hfa =>
  split
  · exact hI
  next hstock =>
  have hasset : asset ∈ s.assets := List.mem_of_find?_eq_some hfa
  have hmapA := @map_updateFirst AssetDoc Nat (assetInStockById request.assetId)
    decrementBoth AssetDoc.aid (fun a => rfl) s.assets
  have hmapR := @map_updateFirst RequestDoc Nat (requestById id)
    (fun r => { r with requestStatus := "approved", approvalDate := some 0 })
    RequestDoc.rid (fun r => rfl) s.requests
  have base : ∀ na : AssignmentDoc, na.sid = s.nextAssignId →
      Inv ({ s with
             assets := (updateFirst (assetInStockById request.assetId)
               decrementBoth s.assets),
             requests := (updateFirst (requestById id)
               (fun r => { r with
                           requestStatus := "approved",
                           approvalDate := some 0 }) s.requests),
             assignments := s.assignments ++ [na],
             nextAssignId := s.nextAssignId + 1 }) := by
    intro na hna
    refine ⟨hI.usersNodup, ?_, ?_, ?_, ?_, ?_, ?_, ?_, hI.counter, hI.affilHR,
      ?_, ?_, ?_, ?_, hI.activeUnique⟩
    · rw [hmapA]
      exact hI.assetsNodup
    · exact updateFirst_pres hI.assetsLt (fun a _ ha => ha)
    · rw [hmapR]
      exact hI.requestsNodup
    · exact updateFirst_pres hI.requestsLt (fun r _ hr => hr)
    · rw [List.map_append, List.nodup_append]
      refine ⟨hI.assignsNodup, by simp, ?_⟩
      intro x hx hx2
      simp only [List.map_cons, List.map_nil, List.mem_singleton] at hx2
      obtain ⟨a, ha, hae⟩ := List.mem_map.1 hx
      have := hI.assignsLt a ha
      rw [hx2, hna] at hae
      omega
    · intro a ha
      show a.sid < s.nextAssignId + 1
      rcases List.mem_append.1 ha with ha1 | ha1
      · have := hI.assignsLt a ha1
        omega
      · rw [List.mem_singleton.1 ha1, hna]
        exact Nat.lt_succ_self _
    · refine updateFirst_pres hI.lockstep (fun a _ ha => ?_)
      simp only [decrementBoth]
      omega
    · exact updateFirst_pres hI.assetHR (fun a _ ha => ha)
    · exact updateFirst_pres hI.requestHR (fun r _ hr => hr)
    · exact updateFirst_pres hI.statusWF (fun r _ _ => Or.inr (Or.inl rfl))
    · intro aid' e'
      have hcount := @countP_updateFirst_congr RequestDoc (requestById id)
        (fun r => { r with requestStatus := "approved", approvalDate := some 0 })
        (fun r => r.assetId == aid' && r.requesterEmail == e')
        s.requests (fun r _ _ => rfl)
      show pairCount _ aid' e' ≤ 1
      rw [pairCount, hcount]
      exact hI.pairUnique aid' e'
  split
  · next hisnew =>
    have hnew : s.affiliations.find?
        (activeAffiliation request.requesterEmail h) = none :=
      Option.isNone_iff_eq_none.1 hisnew
    have hnoaff : ∀ x ∈ s.affiliations,
        activeAffiliation request.requesterEmail h x = false := by
      intro x hx
      exact Bool.not_eq_true _ ▸ Bool.of_not_eq_true (List.find?_eq_none.1 hnew x hx)
    split
    · exact hI
    next hrUser hfu =>
    split
    · exact hI
    split
    · exact hI
    next hany =>
    have withAffil : ∀ (na : AssignmentDoc) (naf : AffiliationDoc),
        na.sid = s.nextAssignId →
        naf.employeeEmail = request.requesterEmail →
        naf.hrEmail = request.hrEmail → naf.status = "active" →
        Inv ({ s with
               assets := (updateFirst (assetInStockById request.assetId)
                 decrementBoth s.assets),
               requests := (updateFirst (requestById id)
                 (fun r => { r with
                             requestStatus := "approved",
                             approvalDate := some 0 }) s.requests),
               assignments := s.assignments ++ [na],
               affiliations := s.affiliations ++ [naf],
               users := (updateFirst (hasEmail h)
                 (fun u => { u with currentEmployees :=
                   u.currentEmployees + 1 }) s.users),
               nextAssignId := s.nextAssignId + 1 }) := by
      intro na naf hna hnafE hnafH hnafS
      have hb := base na hna
      have hmapU := @map_updateFirst UserDoc String (hasEmail h)
        (fun u => { u with currentEmployees := u.currentEmployees + 1 })
        UserDoc.email (fun u => rfl) s.users
      have hid : ∀ u : UserDoc,
          ((fun u : UserDoc => { u with currentEmployees :=
            u.currentEmployees + 1 }) u).email = u.email ∧
          ((fun u : UserDoc => { u with currentEmployees :=
            u.currentEmployees + 1 }) u).role = u.role :=
        fun u => ⟨rfl, rfl⟩
      refine ⟨?_, hb.assetsNodup, hb.assetsLt, hb.requestsNodup, hb.requestsLt,
        hb.assignsNodup, hb.assignsLt, hb.lockstep, ?_, ?_, ?_, ?_,
        hb.statusWF, hb.pairUnique, ?_⟩
      · rw [hmapU]
        exact hI.usersNodup
      · intro u hu
        rcases mem_updateFirst_key (k := h)
            hI.usersNodup (fun x => hasEmail_iff) hu with
          ⟨hu1, hne⟩ | ⟨y, hy, hye, huy⟩
        · rw [hI.counter u hu1]
          show _ = ((s.affiliations ++ [naf]).countP
            (fun a => a.hrEmail == u.email && a.status == "active") : Int)
          rw [List.countP_append]
          have h0 : List.countP
              (fun a => a.hrEmail == u.email && a.status == "active") [naf] = 0 := by
            rw [List.countP_eq_zero]
            intro x hx
            rw [List.mem_singleton.1 hx]
            have : naf.hrEmail ≠ u.email := by
              rw [hnafH, hrEq]
              exact fun hh => hne hh.symm
            simp [this]
          rw [h0]
          rw [activeCount]
          omega
        · have hcount := hI.counter y hy
          have hyemail : u.email = y.email := by rw [huy]
          have hucur : u.currentEmployees = y.currentEmployees + 1 := by rw [huy]
          rw [hucur, hyemail]
          show _ = ((s.affiliations ++ [naf]).countP
            (fun a => a.hrEmail == y.email && a.status == "active") : Int)
          rw [List.countP_append]
          have h1 : List.countP
              (fun a => a.hrEmail == y.email && a.status == "active") [naf] = 1 := by
            have : naf.hrEmail = y.email := by rw [hnafH, hrEq, hye]
            simp [List.countP_cons, this, hnafS]
          rw [h1]
          rw [activeCount] at hcount
          omega
      · intro a ha
        rcases List.mem_append.1 ha with ha1 | ha1
        · exact hasHR_updateFirst hid (hI.affilHR a ha1)
        · rw [List.mem_singleton.1 ha1, hnafH]
          exact hasHR_updateFirst hid (hI.requestHR request hreq)
      · intro a ha
        have := updateFirst_pres (p := assetInStockById request.assetId)
          (f := decrementBoth) (P := fun x => hasHR s.users x.hrEmail)
          hI.assetHR (fun x _ hx => hx) a ha
        exact hasHR_updateFirst hid this
      · intro r hr
        have := updateFirst_pres (p := requestById id)
          (f := fun r => { r with requestStatus := "approved", approvalDate := some 0 })
          (P := fun x => hasHR s.users x.hrEmail)
          hI.requestHR (fun x _ hx => hx) r hr
        exact hasHR_updateFirst hid this
      · intro e' h'
        rw [List.countP_append]
        by_cases hm : e' = request.requesterEmail ∧ h' = request.hrEmail
        · have h0 : s.affiliations.countP (activeAffiliation e' h') = 0 := by
            rw [List.countP_eq_zero]
            intro x hx hx2
            have := hnoaff x hx
            rw [hm.1, hm.2, hrEq] at hx2
            rw [this] at hx2
            exact Bool.false_ne_true hx2
          rw [h0]
          have h2 : List.countP (activeAffiliation e' h') [naf] ≤ 1 :=
            le_trans (List.countP_le_length _) (by simp)
          omega
        · have h1 : List.countP (activeAffiliation e' h') [naf] = 0 := by
            rw [List.countP_eq_zero]
            intro x hx
            rw [List.mem_singleton.1 hx]
            rw [activeAffiliation]
            simp only [Bool.and_eq_true, beq_iff_eq, not_and]
            intro hxe hxh
            rw [hnafE, hnafH] at hxe
            exact hm ⟨hxe.1.symm, hxe.2.symm⟩
          rw [h1]
          have := hI.activeUnique e' h'
          omega
    exact withAffil _ _ rfl rfl rfl rfl
  · split
    · exact hI
    next hany =>
    exact base _ rfl

/-! The `remove-employee` loop only touches assets and assignments; these
lemmas push facts through the fold. -/

theorem foldl_returnOne_users (items : List AssignmentDoc) (st : DB) :
    (items.foldl returnOne st).users = st.users := by
  induction items generalizing st with
  | nil => rfl
  | cons a rest ih => rw [List.foldl_cons, ih]; rfl

theorem foldl_returnOne_affiliations (items : List AssignmentDoc) (st : DB) :
    (items.foldl returnOne st).affiliations = st.affiliations := by
  induction items generalizing st with
  | nil => rfl
  | cons a rest ih => rw [List.foldl_cons, ih]; rfl

theorem foldl_returnOne_requests (items : List AssignmentDoc) (st : DB) :
    (items.foldl returnOne st).requests = st.requests := by
  induction items generalizing st with
  | nil => rfl
  | cons a rest ih => rw [List.foldl_cons, ih]; rfl

theorem foldl_returnOne_nextAssetId (items : List AssignmentDoc) (st : DB) :
    (items.foldl returnOne st).nextAssetId = st.nextAssetId := by
  induction items generalizing st with
  | nil => rfl
  | cons a rest ih => rw [List.foldl_cons, ih]; rfl

theorem foldl_returnOne_nextRequestId (items : List AssignmentDoc) (st : DB) :
    (items.foldl returnOne st).nextRequestId = st.nextRequestId := by
  induction items generalizing st with
  | nil => rfl
  | cons a rest ih => rw [List.foldl_cons, ih]; rfl

theorem foldl_returnOne_nextAssignId (items : List AssignmentDoc) (st : DB) :
    (items.foldl returnOne st).nextAssignId = st.nextAssignId := by
  induction items generalizing st with
  | nil => rfl
  | cons a rest ih => rw [List.foldl_cons, ih]; rfl

theorem foldl_returnOne_assets_pres {P : AssetDoc → Prop}
    (hP : ∀ a, P a → P (incrementBoth a)) :
    ∀ (items : List AssignmentDoc) (st : DB),
      (∀ x ∈ st.assets, P x) → ∀ x ∈ (items.foldl returnOne st).assets, P x := by
  intro items
  induction items with
  | nil => intro st h; exact h
  | cons a rest ih =>
      intro st h
      rw [List.foldl_cons]
      exact ih _ (updateFirst_pres h (fun y _ hy => hP y hy))

theorem foldl_returnOne_assets_map (items : List AssignmentDoc) (st : DB) :
    (items.foldl returnOne st).assets.map AssetDoc.aid =
      st.assets.map AssetDoc.aid := by
  induction items generalizing st with
  | nil => rfl
  | cons a rest ih =>
      rw [List.foldl_cons, ih]
      exact @map_updateFirst AssetDoc Nat (assetById a.assetId) incrementBoth
        AssetDoc.aid (fun x => rfl) st.assets

theorem foldl_returnOne_assigns_pres {P : AssignmentDoc → Prop}
    (hP : ∀ a, P a →
      P { a with status := "returned", returnDate := some 0 }) :
    ∀ (items : List AssignmentDoc) (st : DB),
      (∀ x ∈ st.assignments, P x) →
      ∀ x ∈ (items.foldl returnOne st).assignments, P x := by
  intro items
  induction items with
  | nil => intro st h; exact h
  | cons a rest ih =>
      intro st h
      rw [List.foldl_cons]
      exact ih _ (updateFirst_pres h (fun y _ hy => hP y hy))

theorem foldl_returnOne_assigns_map (items : List AssignmentDoc) (st : DB) :
    (items.foldl returnOne st).assignments.map AssignmentDoc.sid =
      st.assignments.map AssignmentDoc.sid := by
  induction items generalizing st with
  | nil => rfl
  | cons a rest ih =>
      rw [List.foldl_cons, ih]
      exact @map_updateFirst AssignmentDoc Nat (assignmentById a.sid)
        (fun x => { x with status := "returned", returnDate := some 0 })
        AssignmentDoc.sid (fun x => rfl) st.assignments

theorem inv_removeEmployee {s : DB} (hI : Inv s) (h e : String) :
    Inv (removeEmployee s h e).2 := by
  unfold removeEmployee
  split
  · exact hI
  split
  · exact hI
  split
  · exact hI
  next hfalsy hhr hact =>
  rw [not_not] at hact
  dsimp only
  set s1 : DB := { s with affiliations :=
    (updateFirst (activeAffiliation e h)
      (fun a => { a with status := "inactive" }) s.affiliations) } with hs1
  set assigned := s1.assignments.filter (assignedForPair e h) with hassigned
  set s2 := assigned.foldl returnOne s1 with hs2
  have h2users : s2.users = s.users := foldl_returnOne_users _ _
  have h2affs : s2.affiliations = s1.affiliations := foldl_returnOne_affiliations _ _
  have h2reqs : s2.requests = s.requests := foldl_returnOne_requests _ _
  have h2na : s2.nextAssetId = s.nextAssetId := foldl_returnOne_nextAssetId _ _
  have h2nr : s2.nextRequestId = s.nextRequestId := foldl_returnOne_nextRequestId _ _
  have h2ns : s2.nextAssignId = s.nextAssignId := foldl_returnOne_nextAssignId _ _
  constructor
  case usersNodup =>
    show ((updateFirst (hasEmail h)
      (fun u => { u with currentEmployees := u.currentEmployees - 1 })
      s2.users).map UserDoc.email).Nodup
    rw [@map_updateFirst UserDoc String (hasEmail h)
      (fun u => { u with currentEmployees := u.currentEmployees - 1 })
      UserDoc.email (fun x => rfl) s2.users, h2users]
    exact hI.usersNodup
  case assetsNodup =>
    show (s2.assets.map AssetDoc.aid).Nodup
    rw [hs2, foldl_returnOne_assets_map]
    exact hI.assetsNodup
  case assetsLt =>
    intro a ha
    show a.aid < s2.nextAssetId
    rw [h2na]
    exact foldl_returnOne_assets_pres (P := fun x => x.aid < s.nextAssetId)
      (fun x hx => hx) assigned s1 hI.assetsLt a ha
  case requestsNodup =>
    show (s2.requests.map RequestDoc.rid).Nodup
    rw [h2reqs]
    exact hI.requestsNodup
  case requestsLt =>
    intro r hr
    show r.rid < s2.nextRequestId
    rw [h2nr]
    rw [h2reqs] at hr
    exact hI.requestsLt r hr
  case assignsNodup =>
    show (s2.assignments.map AssignmentDoc.sid).Nodup
    rw [hs2, foldl_returnOne_assigns_map]
    exact hI.assignsNodup
  case assignsLt =>
    intro a ha
    show a.sid < s2.nextAssignId
    rw [h2ns]
    exact foldl_returnOne_assigns_pres (P := fun x => x.sid < s.nextAssignId)
      (fun x hx => hx) assigned s1 hI.assignsLt a ha
  case lockstep =>
    intro a ha
    exact foldl_returnOne_assets_pres
      (P := fun x => x.availableQuantity = x.productQuantity)
      (fun x hx => by simp only [incrementBoth]; omega) assigned s1 hI.lockstep a ha
  case counter =>
    intro u hu
    rw [h2affs]
    rcases mem_updateFirst_key (k := h)
        (h2users ▸ hI.usersNodup) (fun x => hasEmail_iff) hu with
      ⟨hu1, hne⟩ | ⟨y, hy, hye, huy⟩
    · rw [h2users] at hu1
      have := hI.counter u hu1
      rw [this]
      congr 1
      rw [activeCount, activeCount]
      refine (@countP_updateFirst_congr AffiliationDoc (activeAffiliation e h)
        (fun a => { a with status := "inactive" })
        (fun a => a.hrEmail == u.email && a.status == "active")
        s.affiliations ?_).symm
      intro x hx hpx
      rw [activeAffiliation_iff] at hpx
      have hxne : x.hrEmail ≠ u.email := fun hh => hne (by rw [← hh, hpx.2.1])
      simp [hxne]
    · rw [h2users] at hy
      have hcount := hI.counter y hy
      have hyemail : u.email = y.email := by rw [huy]
      have hucur : u.currentEmployees = y.currentEmployees - 1 := by rw [huy]
      have hflip : s1.affiliations.countP
            (fun a => a.hrEmail == y.email && a.status == "active") + 1 =
          s.affiliations.countP
            (fun a => a.hrEmail == y.email && a.status == "active") := by
        refine countP_updateFirst_flip hact ?_ ?_
        · intro x hx hpx
          rw [activeAffiliation_iff] at hpx
          simp [hpx.2.1, hye, hpx.2.2]
        · intro x hx hpx
          simp
      rw [hucur, hyemail, activeCount]
      rw [activeCount] at hcount
      omega
  case affilHR =>
    intro a ha
    rw [h2affs] at ha
    have := updateFirst_pres (p := activeAffiliation e h)
      (f := fun x => { x with status := "inactive" })
      (P := fun x => hasHR s.users x.hrEmail) hI.affilHR (fun x _ hx => hx) a ha
    exact hasHR_updateFirst (fun u => ⟨rfl, rfl⟩) (h2users ▸ this)
  case assetHR =>
    intro a ha
    have := foldl_returnOne_assets_pres (P := fun x => hasHR s.users x.hrEmail)
      (fun x hx => hx) assigned s1 hI.assetHR a ha
    exact hasHR_updateFirst (fun u => ⟨rfl, rfl⟩) (h2users ▸ this)
  case requestHR =>
    intro r hr
    rw [h2reqs] at hr
    exact hasHR_updateFirst (fun u => ⟨rfl, rfl⟩) (h2users ▸ hI.requestHR r hr)
  case statusWF =>
    intro r hr
    rw [h2reqs] at hr
    exact hI.statusWF r hr
  case pairUnique =>
    intro aid' e'
    show pairCount s2.requests aid' e' ≤ 1
    rw [h2reqs]
    exact hI.pairUnique aid' e'
  case activeUnique =>
    intro e' h'
    rw [h2affs]
    refine le_trans (countP_updateFirst_le ?_) (hI.activeUnique e' h')
    intro x hx hpx hq
    rw [activeAffiliation_iff] at hq
    exact absurd hq.2.2 (by simp)

theorem inv_directAssign {s : DB} (hI : Inv s) (h e : String) (assetId : Nat) :
    Inv (directAssign s h e assetId).2 := by
  unfold directAssign
  split
  · exact hI
  split
  · exact hI
  split
  · exact hI
  next affiliation haf =>
  split
  · exact hI
  next asset hfa =>
  split
  · exact hI
  split
  · exact hI
  split
  · exact hI
  have hmap := @map_updateFirst AssetDoc Nat (assetInStockById assetId)
    decrementBoth AssetDoc.aid (fun a => rfl) s.assets
  refine ⟨hI.usersNodup, ?_, ?_, hI.requestsNodup, hI.requestsLt, ?_, ?_,
    ?_, hI.counter, hI.affilHR, ?_, hI.requestHR, hI.statusWF,
    hI.pairUnique, hI.activeUnique⟩
  · rw [hmap]
    exact hI.assetsNodup
  · exact updateFirst_pres hI.assetsLt (fun a _ ha => ha)
  · rw [List.map_append, List.nodup_append]
    refine ⟨hI.assignsNodup, by simp, ?_⟩
    intro x hx hx2
    simp only [List.map_cons, List.map_nil, List.mem_singleton] at hx2
    obtain ⟨a, ha, hae⟩ := List.mem_map.1 hx
    have := hI.assignsLt a ha
    omega
  · intro a ha
    show a.sid < s.nextAssignId + 1
    rcases List.mem_append.1 ha with ha1 | ha1
    · have := hI.assignsLt a ha1
      omega
    · rw [List.mem_singleton.1 ha1]
      exact Nat.lt_succ_self _
  · refine updateFirst_pres hI.lockstep (fun a _ ha => ?_)
    simp only [decrementBoth]
    omega
  · exact updateFirst_pres hI.assetHR (fun a _ ha => ha)

theorem inv_step {s : DB} (hI : Inv s) (op : Op) : Inv (applyOp s op).2 := by
  cases op with
  | createUser n e r cn cl p d => exact inv_createUser hI n e r cn cl p d
  | addAsset pn pi pt q h c => exact inv_addAsset hI pn pi pt q h c
  | updateAsset i pn pi q h => exact inv_updateAsset hI i pn pi q h
  | deleteAsset i h => exact inv_deleteAsset hI i h
  | createAssetRequest a e nt => exact inv_createAssetRequest hI a e nt
  | rejectRequest i h => exact inv_rejectRequest hI i h
  | approveRequest i h => exact inv_approveRequest hI i h
  | removeEmployee h e => exact inv_removeEmployee hI h e
  | directAssign h e a => exact inv_directAssign hI h e a
  | updateProfile e n d p => exact inv_updateProfile hI e n d p

theorem inv_runOps {s : DB} (hI : Inv s) (ops : List Op) :
    Inv (runOps s ops) := by
  induction ops generalizing s with
  | nil => exact hI
  | cons op rest ih => exact ih (inv_step hI op)

/-- Every reachable database state satisfies all the structural
invariants. -/
theorem inv_reachable {s : DB} (h : Reachable s) : Inv s := by
  obtain ⟨ops, hops⟩ := h
  exact hops ▸ inv_runOps inv_init ops

theorem runOps_append (s : DB) (l1 l2 : List Op) :
    runOps s (l1 ++ l2) = runOps (runOps s l1) l2 := by
  induction l1 generalizing s with
  | nil => rfl
  | cons op rest ih => rw [List.cons_append, runOps, runOps, ih]

theorem reachable_runOps {s : DB} (hs : Reachable s) (ops : List Op) :
    Reachable (runOps s ops) := by
  obtain ⟨ops0, h0⟩ := hs
  exact ⟨ops0 ++ ops, by rw [runOps_append, h0]⟩

theorem mem_updateFirst_of_not_pred {p : α → Bool} {f : α → α} {l : List α}
    {x : α} (hx : x ∈ l) (hpx : p x = false) : x ∈ updateFirst p f l := by
  induction l with
  | nil => exact absurd hx (by simp)
  | cons z zs ih =>
      by_cases hz : p z
      · rcases List.mem_cons.1 hx with hx1 | hx1
        · exact absurd (hx1 ▸ hz) (by simp [hpx])
        · rw [updateFirst, if_pos hz]
          exact List.mem_cons_of_mem _ hx1
      · rcases List.mem_cons.1 hx with hx1 | hx1
        · rw [updateFirst, if_neg hz]
          exact hx1 ▸ List.mem_cons_self _ _
        · rw [updateFirst, if_neg hz]
          exact List.mem_cons_of_mem _ (ih hx1)

theorem mem_updateFirst_target {p : α → Bool} {f : α → α} {l : List α}
    {x : α} (hx : x ∈ l) (hpx : p x = true)
    (huniq : ∀ y ∈ l, p y = true → y = x) : f x ∈ updateFirst p f l := by
  induction l with
  | nil => exact absurd hx (by simp)
  | cons z zs ih =>
      by_cases hz : p z
      · rw [updateFirst, if_pos hz, huniq z (List.mem_cons_self _ _) hz]
        exact List.mem_cons_self _ _
      · rcases List.mem_cons.1 hx with hx1 | hx1
        · exact absurd (hx1 ▸ hpx) (hx1 ▸ hz)
        · rw [updateFirst, if_neg hz]
          exact List.mem_cons_of_mem _
            (ih hx1 (fun y hy hpy => huniq y (List.mem_cons_of_mem _ hy) hpy))

theorem eq_of_countP_le_one {p : α → Bool} {l : List α}
    (h : l.countP p ≤ 1) :
    ∀ x ∈ l, ∀ y ∈ l, p x = true → p y = true → x = y := by
  induction l with
  | nil => intro x hx; exact absurd hx (by simp)
  | cons z zs ih =>
      intro x hx y hy hpx hpy
      rw [List.countP_cons] at h
      by_cases hz : p z
      · have hzero : zs.countP p = 0 := by
          rw [if_pos hz] at h
          omega
        have hnone : ∀ w ∈ zs, p w = false := fun w hw =>
          Bool.not_eq_true _ ▸ Bool.of_not_eq_true (List.countP_eq_zero.1 hzero w hw)
        rcases List.mem_cons.1 hx with hx1 | hx1
        · rcases List.mem_cons.1 hy with hy1 | hy1
          · rw [hx1, hy1]
          · exact absurd hpy (by simp [hnone y hy1])
        · exact absurd hpx (by simp [hnone x hx1])
      · rcases List.mem_cons.1 hx with hx1 | hx1
        · exact absurd (hx1 ▸ hpx) hz
        · rcases List.mem_cons.1 hy with hy1 | hy1
          · exact absurd (hy1 ▸ hpy) hz
          · rw [if_neg hz] at h
            exact ih (by omega) x hx1 y hy1 hpx hpy

/-- A rejected request document is never touched again by any operation:
reject and approve only rewrite a pending request, creation appends, and
nothing deletes requests. -/
theorem rejected_persists {s : DB} (hI : Inv s) (op : Op) :
    ∀ r ∈ s.requests, r.requestStatus = "rejected" →
      r ∈ (applyOp s op).2.requests := by
  intro r hr hrej
  have huntouched : ∀ (i : Nat) (g : RequestDoc → RequestDoc)
      (req : RequestDoc), req ∈ s.requests → req.rid = i →
      req.requestStatus = "pending" →
      r ∈ updateFirst (requestById i) g s.requests := by
    intro i g req hreq hrid hpend
    refine mem_updateFirst_of_not_pred hr ?_
    rw [requestById]
    have hne : r.rid ≠ i := by
      intro hh
      have : r = req := List.inj_on_of_nodup_map hI.requestsNodup hr hreq
        (by rw [hh, hrid])
      rw [this, hpend] at hrej
      exact absurd hrej (by decide)
    simp [hne]
  cases op with
  | createUser n e rl cn cl p d =>
      show r ∈ (createUser s n e rl cn cl p d).2.requests
      unfold createUser
      split
      · exact hr
      split
      · exact hr
      · exact hr
  | addAsset pn pi pt q h c =>
      show r ∈ (addAsset s pn pi pt q h c).2.requests
      unfold addAsset
      split
      · exact hr
      split
      · exact hr
      split
      · exact hr
      split
      · exact hr
      · exact hr
  | updateAsset i pn pi q h =>
      show r ∈ (updateAsset s i pn pi q h).2.requests
      unfold updateAsset
      split
      · exact hr
      split
      · exact hr
      split
      · exact hr
      split
      · exact hr
      split
      · split
        · exact hr
        · exact hr
      · exact hr
  | deleteAsset i h =>
      show r ∈ (deleteAsset s i h).2.requests
      unfold deleteAsset
      split
      · exact hr
      split
      · exact hr
      split
      · exact hr
      dsimp only
      split
      · exact hr
      · exact hr
  | createAssetRequest a e nt =>
      show r ∈ (createAssetRequest s a e nt).2.requests
      unfold createAssetRequest
      split
      · exact hr
      split
      · exact hr
      split
      · exact hr
      split
      · exact hr
      split
      · exact hr
      dsimp only
      split
      · exact List.mem_append_left _ hr
      split
      · exact hr
      split
      · exact hr
      split
      · exact hr
      · exact List.mem_append_left _ hr
  | rejectRequest i h =>
      show r ∈ (rejectRequest s i h).2.requests
      unfold rejectRequest
      split
      · exact hr
      split
      · exact hr
      next req hfind =>
      split
      · exact hr
      next hcond =>
      push_neg at hcond
      have hreq : req ∈ s.requests := List.mem_of_find?_eq_some hfind
      have hrid : req.rid = i := requestById_iff.1 (List.find?_some hfind)
      exact huntouched i _ req hreq hrid hcond.1
  | approveRequest i h =>
      show r ∈ (approveRequest s i h).2.requests
      unfold approveRequest
      split
      · exact hr
      split
      · exact hr
      next req hfind =>
      split
      · exact hr
      dsimp only
      split
      · exact hr
      next asset hfa =>
      split
      · exact hr
      have hreq : req ∈ s.requests := List.mem_of_find?_eq_some hfind
      have hpq := List.find?_some hfind
      rw [pendingRequestById, Bool.and_eq_true] at hpq
      have hrid : req.rid = i := by simpa using hpq.1
      have hpend : req.requestStatus = "pending" := by simpa using hpq.2
      have hmain := huntouched i
        (fun r => { r with requestStatus := "approved", approvalDate := some 0 })
        req hreq hrid hpend
      split
      · split
        · exact hr
        split
        · exact hr
        split
        · exact hr
        · exact hmain
      · split
        · exact hr
        · exact hmain
  | removeEmployee h e =>
      show r ∈ (removeEmployee s h e).2.requests
      unfold removeEmployee
      split
      · exact hr
      split
      · exact hr
      split
      · exact hr
      dsimp only
      rw [foldl_returnOne_requests]
      exact hr
  | directAssign h e a =>
      show r ∈ (directAssign s h e a).2.requests
      unfold directAssign
      split
      · exact hr
      split
      · exact hr
      split
      · exact hr
      split
      · exact hr
      split
      · exact hr
      split
      · exact hr
      split
      · exact hr
      · exact hr
  | updateProfile e n d p =>
      show r ∈ (updateProfile s e n d p).2.requests
      unfold updateProfile
      split
      · exact hr
      split
      · exact hr
      dsimp only
      split
      · exact hr
      · exact hr

theorem rejected_persists_runOps {s : DB} (hI : Inv s) (ops : List Op) :
    ∀ r ∈ s.requests, r.requestStatus = "rejected" →
      r ∈ (runOps s ops).requests := by
  induction ops generalizing s with
  | nil => intro r hr _; exact hr
  | cons op rest ih =>
      intro r hr hrej
      exact ih (inv_step hI op) r (rejected_persists hI op r hr hrej) hrej

theorem updateFirst_pres_pred {p : α → Bool} {f : α → α} {l : List α}
    {P : α → Prop} (hall : ∀ x ∈ l, P x)
    (hf : ∀ x ∈ l, p x = true → P x → P (f x)) :
    ∀ x ∈ updateFirst p f l, P x := by
  intro x hx
  rcases mem_updateFirst hx with h | ⟨y, hy, hpy, hxy⟩
  · exact hall x h
  · exact hxy ▸ hf y hy hpy (hall y hy)

/-- An operation whose add-asset quantity input (if any) is
non-negative. -/
def addQuantityOk : Op → Bool
  | .addAsset _ _ _ q _ _ => decide (0 ≤ q)
  | _ => true

theorem applyAssetPatch_pq (n i : Option String) (q : Option Int) (a : AssetDoc) :
    (applyAssetPatch n i q a).productQuantity = q.getD a.productQuantity := by
  simp only [applyAssetPatch]
  cases q <;> split_ifs <;> rfl

/-- Under inputs that never create negative stock, the total quantity of
every asset stays non-negative after every operation. -/
theorem nonneg_step {s : DB} (op : Op) (hop : addQuantityOk op = true)
    (hs : ∀ a ∈ s.assets, 0 ≤ a.productQuantity) :
    ∀ a ∈ (applyOp s op).2.assets, 0 ≤ a.productQuantity := by
  cases op with
  | createUser n e rl cn cl p d =>
      show ∀ a ∈ (createUser s n e rl cn cl p d).2.assets, _
      unfold createUser
      split
      · exact hs
      split
      · exact hs
      · exact hs
  | addAsset pn pi pt q h c =>
      show ∀ a ∈ (addAsset s pn pi pt q h c).2.assets, _
      have hq : 0 ≤ q := of_decide_eq_true hop
      unfold addAsset
      split
      · exact hs
      split
      · exact hs
      split
      · exact hs
      split
      · exact hs
      intro a ha
      rcases List.mem_append.1 ha with ha1 | ha1
      · exact hs a ha1
      · rw [List.mem_singleton.1 ha1]
        exact hq
  | updateAsset i pn pi q h =>
      show ∀ a ∈ (updateAsset s i pn pi q h).2.assets, _
      unfold updateAsset
      split
      · exact hs
      split
      · exact hs
      split
      · exact hs
      split
      · exact hs
      split
      · next qty =>
        split
        · exact hs
        next hqty =>
        push_neg at hqty
        refine updateFirst_pres hs (fun a _ _ => ?_)
        rw [applyAssetPatch_pq]
        exact hqty
      · refine updateFirst_pres hs (fun a _ ha => ?_)
        rw [applyAssetPatch_pq]
        exact ha
  | deleteAsset i h =>
      show ∀ a ∈ (deleteAsset s i h).2.assets, _
      unfold deleteAsset
      split
      · exact hs
      split
      · exact hs
      split
      · exact hs
      dsimp only
      split
      · exact hs
      · exact fun a ha => hs a (mem_removeFirst ha)
  | createAssetRequest a e nt =>
      show ∀ x ∈ (createAssetRequest s a e nt).2.assets, _
      unfold createAssetRequest
      split
      · exact hs
      split
      · exact hs
      split
      · exact hs
      split
      · exact hs
      split
      · exact hs
      dsimp only
      split
      · exact hs
      split
      · exact hs
      split
      · exact hs
      split
      · exact hs
      · exact hs
  | rejectRequest i h =>
      show ∀ a ∈ (rejectRequest s i h).2.assets, _
      unfold rejectRequest
      split
      · exact hs
      split
      · exact hs
      split
      · exact hs
      · exact hs
  | approveRequest i h =>
      show ∀ a ∈ (approveRequest s i h).2.assets, _
      have hdec : ∀ x ∈ s.assets, ∀ j : Nat, assetInStockById j x = true →
          0 ≤ x.productQuantity → 0 ≤ (decrementBoth x).productQuantity := by
        intro x _ j hj _
        rw [assetInStockById, Bool.and_eq_true] at hj
        have : 0 < x.productQuantity := by
          have := hj.2
          simpa using this
        simp only [decrementBoth]
        omega
      unfold approveRequest
      split
      · exact hs
      split
      · exact hs
      split
      · exact hs
      dsimp only
      split
      · exact hs
      next asset hfa =>
      split
      · exact hs
      split
      · split
        · exact hs
        split
        · exact hs
        split
        · exact hs
        · exact updateFirst_pres_pred hs (fun x hx hq hp => hdec x hx _ hq hp)
      · split
        · exact hs
        · exact updateFirst_pres_pred hs (fun x hx hq hp => hdec x hx _ hq hp)
  | removeEmployee h e =>
      show ∀ a ∈ (removeEmployee s h e).2.assets, _
      unfold removeEmployee
      split
      · exact hs
      split
      · exact hs
      split
      · exact hs
      dsimp only
      intro a ha
      have hstart : ∀ x ∈ ({ s with affiliations := (updateFirst (activeAffiliation e h) (fun a => { a with status := "inactive" }) s.affiliations) } : DB).assets, 0 ≤ x.productQuantity := hs
      refine foldl_returnOne_assets_pres (P := fun x => 0 ≤ x.productQuantity)
        (fun x hx => ?_) _ _ hstart a ha
      simp only [incrementBoth]
      omega
  | directAssign h e a =>
      show ∀ x ∈ (directAssign s h e a).2.assets, _
      have hdec : ∀ x ∈ s.assets, assetInStockById a x = true →
          0 ≤ x.productQuantity → 0 ≤ (decrementBoth x).productQuantity := by
        intro x _ hj _
        rw [assetInStockById, Bool.and_eq_true] at hj
        have : 0 < x.productQuantity := by
          have := hj.2
          simpa using this
        simp only [decrementBoth]
        omega
      unfold directAssign
      split
      · exact hs
      split
      · exact hs
      split
      · exact hs
      split
      · exact hs
      split
      · exact hs
      split
      · exact hs
      split
      · exact hs
      · exact updateFirst_pres_pred hs (fun x hx hq hp => hdec x hx hq hp)
  | updateProfile e n d p =>
      show ∀ a ∈ (updateProfile s e n d p).2.assets, _
      unfold updateProfile
      split
      · exact hs
      split
      · exact hs
      dsimp only
      split
      · exact hs
      · exact hs

theorem nonneg_runOps {s : DB} (ops : List Op)
    (hops : ∀ op ∈ ops, addQuantityOk op = true)
    (hs : ∀ a ∈ s.assets, 0 ≤ a.productQuantity) :
    ∀ a ∈ (runOps s ops).assets, 0 ≤ a.productQuantity := by
  induction ops generalizing s with
  | nil => exact hs
  | cons op rest ih =>
      exact ih (fun o ho => hops o (List.mem_cons_of_mem _ ho))
        (nonneg_step op (hops op (List.mem_cons_self _ _)) hs)

/-- Any request document for a pair is the one `findOne` returns: the
pair-uniqueness invariant makes the pair's document unique, and that
document always matches the duplicate-check filter because its status is
well-formed. -/
theorem find_pair_eq {s : DB} (hI : Inv s) {r : RequestDoc} {assetId : Nat}
    {e : String} (hr : r ∈ s.requests) (hra : r.assetId = assetId)
    (hre : r.requesterEmail = e) :
    s.requests.find? (requestForPair assetId e) = some r := by
  have hpr : requestForPair assetId e r = true := by
    rw [requestForPair]
    rcases hI.statusWF r hr with hst | hst | hst <;>
      simp [hra, hre, hst]
  cases hfind : s.requests.find? (requestForPair assetId e) with
  | none =>
      have := List.find?_eq_none.1 hfind r hr
      simp [hpr] at this
  | some y =>
      have hy := List.mem_of_find?_eq_some hfind
      have hpy := List.find?_some hfind
      have hpy' : (fun x => x.assetId == assetId && x.requesterEmail == e) y
          = true := by
        rw [requestForPair, Bool.and_eq_true, Bool.and_eq_true] at hpy
        rw [Bool.and_eq_true]
        exact hpy.1
      have hpr' : (fun x => x.assetId == assetId && x.requesterEmail == e) r
          = true := by
        rw [Bool.and_eq_true]
        exact ⟨by simp [hra], by simp [hre]⟩
      rw [eq_of_countP_le_one (hI.pairUnique assetId e) y hy r hr hpy' hpr']

/-- When any request document for the pair already exists, request
creation never inserts: every branch of the handler either refuses with
an error or is unreachable. -/
theorem create_refused {s : DB} (hI : Inv s) {assetId : Nat} {e : String}
    (nt : String) {r : RequestDoc} (hr : r ∈ s.requests)
    (hra : r.assetId = assetId) (hre : r.requesterEmail = e) :
    (createAssetRequest s assetId e nt).2 = s ∧
      (createAssetRequest s assetId e nt).1.code ≠ 201 := by
  unfold createAssetRequest
  split
  · exact ⟨rfl, show (400 : Nat) ≠ 201 by decide⟩
  split
  · exact ⟨rfl, show (403 : Nat) ≠ 201 by decide⟩
  next user hfu =>
  split
  · exact ⟨rfl, show (403 : Nat) ≠ 201 by decide⟩
  split
  · exact ⟨rfl, show (400 : Nat) ≠ 201 by decide⟩
  next assetInfo hfa =>
  split
  · exact ⟨rfl, show (400 : Nat) ≠ 201 by decide⟩
  dsimp only
  split
  · next hnone =>
      rw [find_pair_eq hI hr hra hre] at hnone
      exact absurd hnone (by simp)
  next existing hex =>
  split
  · exact ⟨rfl, show (409 : Nat) ≠ 201 by decide⟩
  split
  · exact ⟨rfl, show (409 : Nat) ≠ 201 by decide⟩
  split
  · exact ⟨rfl, show (403 : Nat) ≠ 201 by decide⟩
  next hnp hna hnr =>
  exfalso
  have := List.find?_some hex
  rw [requestForPair, Bool.and_eq_true, Bool.and_eq_true] at this
  rcases this with ⟨-, hst⟩
  simp only [Bool.or_eq_true, beq_iff_eq] at hst
  rcases hst with (h1 | h1) | h1
  · exact hnp h1
  · exact hna h1
  · exact hnr h1

/-- When a request document for the pair exists and the requester and
stock guards pass, the duplicate check decides the response code from
that document's status: 409 for pending or approved, 403 for
rejected. -/
theorem create_duplicate_code {s : DB} (hI : Inv s) {assetId : Nat}
    {e : String} (nt : String) {r : RequestDoc} {u : UserDoc} {a : AssetDoc}
    (hr : r ∈ s.requests) (hra : r.assetId = assetId)
    (hre : r.requesterEmail = e) (h0 : assetId ≠ 0) (he : e ≠ "")
    (hu : u ∈ s.users) (hue : u.email = e) (hur : u.role = "EMPLOYEE")
    (ha : a ∈ s.assets) (haid : a.aid = assetId)
    (hstock : 0 < a.productQuantity) :
    (r.requestStatus = "pending" →
      (createAssetRequest s assetId e nt).1.code = 409) ∧
    (r.requestStatus = "approved" →
      (createAssetRequest s assetId e nt).1.code = 409) ∧
    (r.requestStatus = "rejected" →
      (createAssetRequest s assetId e nt).1.code = 403) := by
  have hfu : s.users.find? (hasEmail e) = some u := by
    refine find?_eq_of_key hI.usersNodup hu (by simp [hasEmail, hue]) ?_
    intro y hy hpy
    rw [hasEmail_iff] at hpy
    rw [hpy, hue]
  have hfa : s.assets.find? (assetById assetId) = some a := by
    refine find?_eq_of_key hI.assetsNodup ha ?_ ?_
    · rw [assetById]
      simp [haid]
    · intro y hy hpy
      rw [assetById] at hpy
      simp at hpy
      rw [hpy, haid]
  unfold createAssetRequest
  rw [if_neg (show ¬(assetId = 0 ∨ e = "") by simp [h0, he]), hfu]
  dsimp only
  rw [if_neg (show ¬u.role ≠ "EMPLOYEE" from fun hh => hh hur), hfa]
  dsimp only
  rw [if_neg (show ¬a.productQuantity ≤ 0 by omega),
    find_pair_eq hI hr hra hre]
  dsimp only
  refine ⟨?_, ?_, ?_⟩
  · intro hst
    rw [if_pos hst]
  · intro hst
    rw [if_neg (show ¬r.requestStatus = "pending" by rw [hst]; decide),
      if_pos hst]
  · intro hst
    rw [if_neg (show ¬r.requestStatus = "pending" by rw [hst]; decide),
      if_neg (show ¬r.requestStatus = "approved" by rw [hst]; decide),
      if_pos hst]

/-! ### The remove-employee loop as a pointwise map -/

theorem map_id_of {l : List α} {f : α → α} (h : ∀ x ∈ l, f x = x) :
    l.map f = l := by
  induction l with
  | nil => rfl
  | cons z zs ih =>
      rw [List.map_cons, h z (List.mem_cons_self _ _),
        ih (fun x hx => h x (List.mem_cons_of_mem _ hx))]

theorem map_eq_map_of_mem {l : List α} {f g : α → β}
    (h : ∀ x ∈ l, f x = g x) : l.map f = l.map g := by
  induction l with
  | nil => rfl
  | cons z zs ih =>
      rw [List.map_cons, List.map_cons, h z (List.mem_cons_self _ _),
        ih (fun x hx => h x (List.mem_cons_of_mem _ hx))]

/-- With pairwise-distinct keys, updating the first match of a key
predicate is the same as mapping the conditional update over the whole
list (at most one element matches). -/
theorem updateFirst_eq_map {p : α → Bool} {f : α → α} {key : α → β} {k : β}
    {l : List α} (hnd : (l.map key).Nodup)
    (hp : ∀ x, p x = true ↔ key x = k) :
    updateFirst p f l = l.map (fun x => if p x then f x else x) := by
  induction l with
  | nil => rfl
  | cons z zs ih =>
      rw [List.map_cons, List.nodup_cons] at hnd
      by_cases hz : p z
      · rw [updateFirst, if_pos hz, List.map_cons, if_pos hz]
        have hzs : zs.map (fun x => if p x then f x else x) = zs := by
          apply map_id_of
          intro x hx
          rw [if_neg]
          intro hpx
          have : key z ∈ zs.map key := by
            rw [(hp z).1 hz, ← (hp x).1 hpx]
            exact List.mem_map_of_mem key hx
          exact hnd.1 this
        rw [hzs]
      · rw [updateFirst, if_neg hz, List.map_cons, if_neg hz, ih hnd.2]

/-- Restocking an asset `n` times (index.js 1836-1839 per loop pass). -/
def incrementBy (n : Nat) (x : AssetDoc) : AssetDoc :=
  { x with productQuantity := x.productQuantity + n,
           availableQuantity := x.availableQuantity + n }

theorem incrementBy_zero (x : AssetDoc) : incrementBy 0 x = x := by
  cases x
  simp [incrementBy]

theorem incrementBy_incrementBoth (n : Nat) (x : AssetDoc) :
    incrementBy n (incrementBoth x) = incrementBy (n + 1) x := by
  cases x
  simp [incrementBy, incrementBoth]
  omega

/-- The asset half of the remove-employee loop: folding the per-item
restock over the asset list increments each asset once per loop item that
carries its id. -/
theorem foldl_inc_eq_map :
    ∀ (items : List AssignmentDoc) (acc : List AssetDoc),
      (acc.map AssetDoc.aid).Nodup →
      items.foldl (fun l2 a =>
          updateFirst (assetById a.assetId) incrementBoth l2) acc
        = acc.map (fun x =>
            incrementBy (items.countP (fun a => a.assetId == x.aid)) x) := by
  intro items
  induction items with
  | nil =>
      intro acc hnd
      rw [List.foldl_nil]
      symm
      apply map_id_of
      intro x hx
      simp [incrementBy_zero]
  | cons a rest ih =>
      intro acc hnd
      rw [List.foldl_cons]
      have hnd2 : ((updateFirst (assetById a.assetId) incrementBoth acc).map
          AssetDoc.aid).Nodup := by
        rw [@map_updateFirst AssetDoc Nat (assetById a.assetId) incrementBoth
          AssetDoc.aid (fun x => rfl) acc]
        exact hnd
      rw [ih _ hnd2,
        @updateFirst_eq_map AssetDoc Nat (assetById a.assetId) incrementBoth
          AssetDoc.aid a.assetId acc hnd (fun x => assetById_iff),
        List.map_map]
      apply map_eq_map_of_mem
      intro x hx
      show incrementBy (rest.countP (fun a2 => a2.assetId ==
          (if assetById a.assetId x then incrementBoth x else x).aid))
        (if assetById a.assetId x then incrementBoth x else x)
        = incrementBy ((a :: rest).countP (fun a2 => a2.assetId == x.aid)) x
      by_cases hc : assetById a.assetId x = true
      · rw [if_pos hc]
        have hxa : x.aid = a.assetId := assetById_iff.1 hc
        have haid : (incrementBoth x).aid = x.aid := rfl
        simp only [haid]
        rw [incrementBy_incrementBoth, List.countP_cons]
        have hpa : (a.assetId == x.aid) = true := by simp [hxa]
        rw [hpa]
        simp
      · rw [if_neg hc]
        rw [List.countP_cons]
        have hxa : ¬x.aid = a.assetId := fun hq => hc (assetById_iff.2 hq)
        have hpa : (a.assetId == x.aid) = false := by
          simp only [beq_eq_false_iff_ne, ne_eq]
          exact fun hq => hxa hq.symm
        rw [hpa]
        simp

/-- The assignment half of the remove-employee loop: folding the per-item
status flip over the assignment list marks exactly the assignments whose
ids occur among the loop items as returned. -/
theorem foldl_flip_eq_map :
    ∀ (items : List AssignmentDoc) (acc : List AssignmentDoc),
      (acc.map AssignmentDoc.sid).Nodup →
      items.foldl (fun l2 a => updateFirst (assignmentById a.sid)
          (fun x => { x with status := "returned", returnDate := some 0 })
          l2) acc
        = acc.map (fun x => if x.sid ∈ items.map AssignmentDoc.sid
            then { x with status := "returned", returnDate := some 0 }
            else x) := by
  intro items
  induction items with
  | nil =>
      intro acc hnd
      rw [List.foldl_nil]
      symm
      apply map_id_of
      intro x hx
      simp
  | cons a rest ih =>
      intro acc hnd
      rw [List.foldl_cons]
      have hnd2 : ((updateFirst (assignmentById a.sid)
          (fun x => { x with status := "returned", returnDate := some 0 })
          acc).map AssignmentDoc.sid).Nodup := by
        rw [@map_updateFirst AssignmentDoc Nat (assignmentById a.sid)
          (fun x => { x with status := "returned", returnDate := some 0 })
          AssignmentDoc.sid (fun x => rfl) acc]
        exact hnd
      rw [ih _ hnd2,
        @updateFirst_eq_map AssignmentDoc Nat (assignmentById a.sid)
          (fun x => { x with status := "returned", returnDate := some 0 })
          AssignmentDoc.sid a.sid acc hnd (fun x => assignmentById_iff),
        List.map_map]
      apply map_eq_map_of_mem
      intro x hx
      show (if (if assignmentById a.sid x then
            ({ x with status := "returned", returnDate := some 0 } :
              AssignmentDoc) else x).sid ∈ rest.map AssignmentDoc.sid
          then ({ (if assignmentById a.sid x then
            ({ x with status := "returned", returnDate := some 0 } :
              AssignmentDoc) else x) with
            status := "returned", returnDate := some 0 } : AssignmentDoc)
          else (if assignmentById a.sid x then
            ({ x with status := "returned", returnDate := some 0 } :
              AssignmentDoc) else x))
        = if x.sid ∈ (a :: rest).map AssignmentDoc.sid
            then { x with status := "returned", returnDate := some 0 }
            else x
      by_cases hc : assignmentById a.sid x = true
      · rw [if_pos hc]
        have hsid : x.sid = a.sid := assignmentById_iff.1 hc
        have h1 : ({ x with status := "returned", returnDate := some 0 } :
            AssignmentDoc).sid = x.sid := rfl
        simp only [h1]
        have hmem : x.sid ∈ (a :: rest).map AssignmentDoc.sid := by
          rw [List.map_cons, hsid]
          exact List.mem_cons_self _ _
        rw [if_pos hmem]
        by_cases hm2 : x.sid ∈ rest.map AssignmentDoc.sid
        · rw [if_pos hm2]
        · rw [if_neg hm2]
      · rw [if_neg hc]
        have hsid : ¬x.sid = a.sid := fun hq => hc (assignmentById_iff.2 hq)
        have hiff : (x.sid ∈ (a :: rest).map AssignmentDoc.sid) ↔
            (x.sid ∈ rest.map AssignmentDoc.sid) := by
          rw [List.map_cons, List.mem_cons]
          exact or_iff_right hsid
        rw [if_congr hiff rfl rfl]

/-- With pairwise-distinct assignment ids, an id of a list member occurs
among the ids of the filtered list exactly when the member itself passes
the filter. -/
theorem sid_mem_filter_iff {l : List AssignmentDoc}
    {p : AssignmentDoc → Bool}
    (hnd : (l.map AssignmentDoc.sid).Nodup) {x : AssignmentDoc}
    (hx : x ∈ l) :
    x.sid ∈ (l.filter p).map AssignmentDoc.sid ↔ p x = true := by
  constructor
  · intro hm
    rcases List.mem_map.1 hm with ⟨y, hy, hsid⟩
    rcases List.mem_filter.1 hy with ⟨hyl, hpy⟩
    have : y = x := List.inj_on_of_nodup_map hnd hyl hx hsid
    exact this ▸ hpy
  · intro hp
    exact List.mem_map_of_mem _ (List.mem_filter.2 ⟨hx, hp⟩)

theorem foldl_returnOne_assets_proj (items : List AssignmentDoc) (st : DB) :
    (items.foldl returnOne st).assets
      = items.foldl (fun l2 a =>
          updateFirst (assetById a.assetId) incrementBoth l2) st.assets := by
  induction items generalizing st with
  | nil => rfl
  | cons a rest ih =>
      rw [List.foldl_cons, List.foldl_cons]
      exact ih _

theorem foldl_returnOne_assigns_proj (items : List AssignmentDoc) (st : DB) :
    (items.foldl returnOne st).assignments
      = items.foldl (fun l2 a => updateFirst (assignmentById a.sid)
          (fun x => { x with status := "returned", returnDate := some 0 })
          l2) st.assignments := by
  induction items generalizing st with
  | nil => rfl
  | cons a rest ih =>
      rw [List.foldl_cons, List.foldl_cons]
      exact ih _

/-! ### Claim theorems -/

/-- Claim C9: in every reachable state, every asset's `availableQuantity`
is exactly equal to `productQuantity` (the code's total): creation and
asset-update set both fields to the same value, and every approval,
direct-assign, and remove-employee restock applies the identical increment
or decrement to both fields, so the two fields never diverge. -/
theorem claimC9_available_equals_total (s : DB) (hs : Reachable s) :
    ∀ a ∈ s.assets, a.availableQuantity = a.productQuantity :=
  (inv_reachable hs).lockstep

def c9ops : List Op :=
  [ .createUser "H" "h" "HR" "C" "" "" "",
    .addAsset "Laptop" "img" "Returnable" 2 "h" "C",
    .createUser "E1" "e1" "EMPLOYEE" "" "" "" "",
    .createAssetRequest 1 "e1" "",
    .approveRequest 1 "h" ]

theorem claimC9_witness :
    ({ aid := 1, productName := "Laptop", productImage := "img",
       productType := "Returnable", productQuantity := 1,
       availableQuantity := 1, hrEmail := "h", companyName := "C" } :
      AssetDoc).availableQuantity =
    ({ aid := 1, productName := "Laptop", productImage := "img",
       productType := "Returnable", productQuantity := 1,
       availableQuantity := 1, hrEmail := "h", companyName := "C" } :
      AssetDoc).productQuantity :=
  claimC9_available_equals_total (runOps initDB c9ops) ⟨c9ops, rfl⟩
    { aid := 1, productName := "Laptop", productImage := "img",
      productType := "Returnable", productQuantity := 1,
      availableQuantity := 1, hrEmail := "h", companyName := "C" }
    (by decide)

/-- Claim C3: in every reachable state, every HR user's
`currentEmployees` field equals the number of affiliation documents with
that HR's email and status `active` (this in fact holds for every user
document, HR or not). -/
theorem claimC3_counter_matches_affiliations (s : DB) (hs : Reachable s) :
    ∀ u ∈ s.users, u.role = "HR" →
      u.currentEmployees = (activeCount s.affiliations u.email : Int) :=
  fun u hu _ => (inv_reachable hs).counter u hu

def c3ops : List Op :=
  [ .createUser "H" "h" "HR" "C" "" "" "",
    .addAsset "Laptop" "img" "Returnable" 3 "h" "C",
    .createUser "E1" "e1" "EMPLOYEE" "" "" "" "",
    .createUser "E2" "e2" "EMPLOYEE" "" "" "" "",
    .createAssetRequest 1 "e1" "",
    .createAssetRequest 1 "e2" "",
    .approveRequest 1 "h",
    .approveRequest 2 "h",
    .directAssign "h" "e1" 1,
    .removeEmployee "h" "e2" ]

theorem claimC3_witness :
    ({ name := "H", email := "h", role := "HR", dateOfBirth := "",
       companyName := "C", companyLogo := "", subscription := "basic",
       packageLimit := 5, currentEmployees := 1, photo := "" } :
      UserDoc).currentEmployees =
      (activeCount (runOps initDB c3ops).affiliations
        ({ name := "H", email := "h", role := "HR", dateOfBirth := "",
           companyName := "C", companyLogo := "", subscription := "basic",
           packageLimit := 5, currentEmployees := 1, photo := "" } :
          UserDoc).email : Int) :=
  claimC3_counter_matches_affiliations (runOps initDB c3ops) ⟨c3ops, rfl⟩
    { name := "H", email := "h", role := "HR", dateOfBirth := "",
      companyName := "C", companyLogo := "", subscription := "basic",
      packageLimit := 5, currentEmployees := 1, photo := "" }
    (by decide) rfl

def c2bugBase : List Op :=
  [ .createUser "H" "h" "HR" "C" "" "" "" ]

def c2cexOps : List Op :=
  [ .createUser "H" "h" "HR" "C" "" "" "",
    .addAsset "Monitor" "img" "Returnable" (-3) "h" "C" ]

/-- Claim C2 states the intended quantity invariant and the code breaks
it at creation: `PATCH /assetcollection/:id` itself rejects a negative
quantity with "productQuantity must be non-negative" (index.js
1318-1325), so `0 ≤ availableQuantity ≤ productQuantity` is clearly the
intent, yet `POST /assetcollection` validates the creation quantity only
with the JavaScript falsy check (index.js 1177), so the negative input
`-3` is accepted with 201 and stored in both quantity fields, violating
`0 ≤ availableQuantity` at the very first observation point. -/
theorem claimC2_negative_creation_bug :
    (addAsset (runOps initDB c2bugBase) "Monitor" "img" "Returnable" (-3)
      "h" "C").1.code = 201 ∧
    ∃ a ∈ (runOps initDB c2cexOps).assets,
      a.productQuantity = -3 ∧ a.availableQuantity = -3 ∧
      ¬(0 ≤ a.availableQuantity ∧
        a.availableQuantity ≤ a.productQuantity) := by
  decide

/-- Restricted to operation sequences in which each add-asset call
supplies a non-negative quantity, the invariant
`0 ≤ availableQuantity ≤ productQuantity` does hold for every asset at
every observation point: updates are validated by the code itself, and
every decrement is stock-guarded.  This isolates the missing creation
check as the sole source of the violation. -/
theorem quantity_invariant_of_nonneg_adds (ops : List Op)
    (hops : ∀ op ∈ ops, addQuantityOk op = true) :
    ∀ a ∈ (runOps initDB ops).assets,
      0 ≤ a.availableQuantity ∧
        a.availableQuantity ≤ a.productQuantity := by
  intro a ha
  have h1 : 0 ≤ a.productQuantity :=
    nonneg_runOps ops hops (by simp [initDB]) a ha
  have h2 := (inv_reachable ⟨ops, rfl⟩).lockstep a ha
  omega

def c2okOps : List Op :=
  [ .createUser "H" "h" "HR" "C" "" "" "",
    .addAsset "Monitor" "img" "Returnable" 2 "h" "C",
    .createUser "E1" "e1" "EMPLOYEE" "" "" "" "",
    .createAssetRequest 1 "e1" "",
    .approveRequest 1 "h" ]

theorem quantity_invariant_example :
    (∀ op ∈ c2okOps, addQuantityOk op = true) ∧
      ∀ a ∈ (runOps initDB c2okOps).assets,
        0 ≤ a.availableQuantity ∧
          a.availableQuantity ≤ a.productQuantity :=
  ⟨by decide, quantity_invariant_of_nonneg_adds c2okOps (by decide)⟩

def c8cexOps : List Op :=
  [ .createUser "H1" "h1" "HR" "C1" "" "" "",
    .createUser "H2" "h2" "HR" "C2" "" "" "",
    .createUser "E" "e" "EMPLOYEE" "" "" "" "",
    .addAsset "Laptop" "img" "Returnable" 1 "h1" "C1",
    .createAssetRequest 1 "e" "" ]

/-- Claim C8 fails as stated: rejecting a pending request owned by HR
`h1` while calling as `h2` answers HTTP 400 ("Cannot reject this
request"), not the claimed 403 — the handler folds the ownership mismatch
into the same 400 as the missing/non-pending cases.  The request is left
unchanged. -/
theorem claimC8_counterexample :
    (∃ r ∈ (runOps initDB c8cexOps).requests,
      r.rid = 1 ∧ r.requestStatus = "pending" ∧ r.hrEmail = "h1") ∧
    (rejectRequest (runOps initDB c8cexOps) 1 "h2").1.code = 400 ∧
    (rejectRequest (runOps initDB c8cexOps) 1 "h2").1.code ≠ 403 ∧
    (rejectRequest (runOps initDB c8cexOps) 1 "h2").2 =
      runOps initDB c8cexOps := by
  decide

/-- Claim C8, amended: a reject call on an existing pending request by a
caller whose hrEmail does not match the request's hrEmail fails with HTTP
400 (not 403) and leaves the state unchanged; a reject on a request that
is no longer pending also fails with 400 without modifying anything. -/
theorem claimC8_amended_reject_errors (s : DB) (hs : Reachable s)
    (r : RequestDoc) (hr : r ∈ s.requests) (h' : String) :
    (r.requestStatus = "pending" → r.hrEmail ≠ h' →
      (rejectRequest s r.rid h').1.code = 400 ∧
        (rejectRequest s r.rid h').2 = s) ∧
    (r.requestStatus ≠ "pending" →
      (rejectRequest s r.rid h').1.code = 400 ∧
        (rejectRequest s r.rid h').2 = s) := by
  have hI := inv_reachable hs
  have hfind : s.requests.find? (requestById r.rid) = some r := by
    refine find?_eq_of_key hI.requestsNodup hr (by simp [requestById]) ?_
    intro y hy hpy
    rw [requestById] at hpy
    simpa using hpy
  by_cases h0 : h' = ""
  · constructor <;> intro _ <;> (try intro _) <;>
      (unfold rejectRequest; rw [if_pos h0]; exact ⟨rfl, rfl⟩)
  · constructor
    · intro hpend hne
      unfold rejectRequest
      rw [if_neg h0, hfind]
      dsimp only
      rw [if_pos (Or.inr hne)]
      exact ⟨rfl, rfl⟩
    · intro hnp
      unfold rejectRequest
      rw [if_neg h0, hfind]
      dsimp only
      rw [if_pos (Or.inl hnp)]
      exact ⟨rfl, rfl⟩

theorem claimC8_witness :
    ((({ rid := 1, assetId := 1, assetName := "Laptop",
         assetType := "Returnable", requesterName := "E",
         requesterEmail := "e", hrEmail := "h1", companyName := "C1",
         approvalDate := none, rejectionDate := none,
         requestStatus := "pending", note := "" } : RequestDoc) ∈
        (runOps initDB c8cexOps).requests) ∧
     ("pending" = "pending") ∧ ("h1" ≠ "h2")) ∧
    (rejectRequest (runOps initDB c8cexOps) 1 "h2").1.code = 400 ∧
    (rejectRequest (runOps initDB c8cexOps) 1 "h2").2 =
      runOps initDB c8cexOps := by
  refine ⟨⟨by decide, rfl, by decide⟩, ?_⟩
  exact (claimC8_amended_reject_errors (runOps initDB c8cexOps)
    ⟨c8cexOps, rfl⟩
    { rid := 1, assetId := 1, assetName := "Laptop",
      assetType := "Returnable", requesterName := "E",
      requesterEmail := "e", hrEmail := "h1", companyName := "C1",
      approvalDate := none, rejectionDate := none,
      requestStatus := "pending", note := "" }
    (by decide) "h2").1 rfl (by decide)

/-- Claim C1: approving a pending request whose asset has zero available
stock answers HTTP 400 and mutates nothing — the request stays pending,
no assignment is inserted, no affiliation is created and no counter
changes, because the returned state is exactly the input state.  (In this
handler the stock check runs before the quota check, and the conditional
decrement is additionally guarded by `productQuantity > 0`.) -/
theorem claimC1_approve_out_of_stock (s : DB) (hs : Reachable s)
    (r : RequestDoc) (a : AssetDoc) (hr : r ∈ s.requests)
    (hpend : r.requestStatus = "pending") (ha : a ∈ s.assets)
    (haid : a.aid = r.assetId) (hzero : a.availableQuantity = 0)
    (hrEmail : String) :
    (approveRequest s r.rid hrEmail).1.code = 400 ∧
      (approveRequest s r.rid hrEmail).2 = s := by
  have hI := inv_reachable hs
  have hpq : a.productQuantity ≤ 0 := by
    have := hI.lockstep a ha
    omega
  have hfind : s.requests.find? (pendingRequestById r.rid) = some r := by
    refine find?_eq_of_key hI.requestsNodup hr ?_ ?_
    · rw [pendingRequestById, Bool.and_eq_true]
      exact ⟨by simp, by simp [hpend]⟩
    · intro y hy hpy
      rw [pendingRequestById, Bool.and_eq_true] at hpy
      simpa using hpy.1
  have hfa : s.assets.find? (assetById r.assetId) = some a := by
    refine find?_eq_of_key hI.assetsNodup ha ?_ ?_
    · rw [assetById]
      simp [haid]
    · intro y hy hpy
      rw [assetById] at hpy
      simp at hpy
      rw [hpy, haid]
  by_cases h0 : hrEmail = ""
  · unfold approveRequest
    rw [if_pos h0]
    exact ⟨rfl, rfl⟩
  · unfold approveRequest
    rw [if_neg h0, hfind]
    dsimp only
    by_cases h1 : r.hrEmail ≠ hrEmail
    · rw [if_pos h1]
      exact ⟨rfl, rfl⟩
    · rw [if_neg h1, hfa]
      dsimp only
      rw [if_pos hpq]
      exact ⟨rfl, rfl⟩

def c1ops : List Op :=
  [ .createUser "H" "h" "HR" "C" "" "" "",
    .createUser "E1" "e1" "EMPLOYEE" "" "" "" "",
    .createUser "E2" "e2" "EMPLOYEE" "" "" "" "",
    .addAsset "Laptop" "img" "Returnable" 1 "h" "C",
    .createAssetRequest 1 "e1" "",
    .createAssetRequest 1 "e2" "",
    .approveRequest 1 "h" ]

theorem claimC1_witness :
    ((({ rid := 2, assetId := 1, assetName := "Laptop",
         assetType := "Returnable", requesterName := "E2",
         requesterEmail := "e2", hrEmail := "h", companyName := "C",
         approvalDate := none, rejectionDate := none,
         requestStatus := "pending", note := "" } : RequestDoc) ∈
        (runOps initDB c1ops).requests) ∧
     (({ aid := 1, productName := "Laptop", productImage := "img",
         productType := "Returnable", productQuantity := 0,
         availableQuantity := 0, hrEmail := "h",
         companyName := "C" } : AssetDoc) ∈ (runOps initDB c1ops).assets)) ∧
    (approveRequest (runOps initDB c1ops) 2 "h").1.code = 400 ∧
    (approveRequest (runOps initDB c1ops) 2 "h").2 = runOps initDB c1ops := by
  refine ⟨⟨by decide, by decide⟩, ?_⟩
  exact claimC1_approve_out_of_stock (runOps initDB c1ops) ⟨c1ops, rfl⟩
    { rid := 2, assetId := 1, assetName := "Laptop",
      assetType := "Returnable", requesterName := "E2",
      requesterEmail := "e2", hrEmail := "h", companyName := "C",
      approvalDate := none, rejectionDate := none,
      requestStatus := "pending", note := "" }
    { aid := 1, productName := "Laptop", productImage := "img",
      productType := "Returnable", productQuantity := 0,
      availableQuantity := 0, hrEmail := "h", companyName := "C" }
    (by decide) rfl (by decide) rfl rfl "h"

def c5cexOps : List Op :=
  [ .createUser "H" "h" "HR" "C" "" "" "",
    .addAsset "Chair" "img" "Returnable" 5 "h" "C",
    .createUser "E1" "e1" "EMPLOYEE" "" "" "" "",
    .createUser "E2" "e2" "EMPLOYEE" "" "" "" "",
    .createUser "E3" "e3" "EMPLOYEE" "" "" "" "",
    .createUser "E4" "e4" "EMPLOYEE" "" "" "" "",
    .createUser "E5" "e5" "EMPLOYEE" "" "" "" "",
    .createAssetRequest 1 "e1" "",
    .createAssetRequest 1 "e2" "",
    .createAssetRequest 1 "e3" "",
    .createAssetRequest 1 "e4" "",
    .createAssetRequest 1 "e5" "",
    .approveRequest 1 "h",
    .approveRequest 2 "h",
    .approveRequest 3 "h",
    .approveRequest 4 "h",
    .approveRequest 5 "h",
    .createUser "E6" "e6" "EMPLOYEE" "" "" "" "",
    .addAsset "Desk" "img" "Returnable" 1 "h" "C",
    .createAssetRequest 2 "e6" "",
    .directAssign "h" "e1" 2 ]

/-- Claim C5 fails as stated: in the live handler the stock check runs
before the quota check, so a pending request by a new employee under an
HR whose `currentEmployees` has reached `packageLimit` is answered with
400 (out of stock), not 403, when the asset has been drained in the
meantime — here HR `h` has 5/5 employees and asset 2 has zero stock, yet
approving new employee `e6`'s pending request yields 400. -/
theorem claimC5_counterexample :
    (∃ r ∈ (runOps initDB c5cexOps).requests, r.rid = 6 ∧
      r.requestStatus = "pending" ∧ r.hrEmail = "h" ∧
      r.requesterEmail = "e6") ∧
    (∀ x ∈ (runOps initDB c5cexOps).affiliations,
      activeAffiliation "e6" "h" x = false) ∧
    (∃ u ∈ (runOps initDB c5cexOps).users, u.email = "h" ∧
      u.currentEmployees ≥ u.packageLimit) ∧
    (approveRequest (runOps initDB c5cexOps) 6 "h").1.code = 400 ∧
    (approveRequest (runOps initDB c5cexOps) 6 "h").1.code ≠ 403 := by
  decide

/-- Claim C5, amended: for a pending request whose approval would
affiliate a new employee (no active affiliation between requester and
HR), if the HR's `currentEmployees` has reached `packageLimit` and the
referenced asset exists with positive stock, the approve operation
answers HTTP 403 quota-exceeded and mutates nothing; when the asset is
out of stock the 400 stock error takes precedence instead. -/
theorem claimC5_amended_quota (s : DB) (hs : Reachable s)
    (r : RequestDoc) (u : UserDoc) (a : AssetDoc) (hr : r ∈ s.requests)
    (hpend : r.requestStatus = "pending") (hne : r.hrEmail ≠ "")
    (hu : u ∈ s.users) (hue : u.email = r.hrEmail) (hurole : u.role = "HR")
    (ha : a ∈ s.assets) (haid : a.aid = r.assetId)
    (hstock : 0 < a.productQuantity)
    (hnoaff : ∀ x ∈ s.affiliations,
      activeAffiliation r.requesterEmail r.hrEmail x = false)
    (hquota : u.currentEmployees ≥ u.packageLimit) :
    (approveRequest s r.rid r.hrEmail).1.code = 403 ∧
      (approveRequest s r.rid r.hrEmail).2 = s := by
  have hI := inv_reachable hs
  have hfindR : s.requests.find? (pendingRequestById r.rid) = some r := by
    refine find?_eq_of_key hI.requestsNodup hr ?_ ?_
    · rw [pendingRequestById, Bool.and_eq_true]
      exact ⟨by simp, by simp [hpend]⟩
    · intro y hy hpy
      rw [pendingRequestById, Bool.and_eq_true] at hpy
      simpa using hpy.1
  have hfindU : s.users.find? (isHRWithEmail r.hrEmail) = some u := by
    refine find?_eq_of_key hI.usersNodup hu ?_ ?_
    · rw [isHRWithEmail_iff]
      exact ⟨hue, hurole⟩
    · intro y hy hpy
      rw [isHRWithEmail_iff] at hpy
      rw [hpy.1, hue]
  have hfindA : s.assets.find? (assetById r.assetId) = some a := by
    refine find?_eq_of_key hI.assetsNodup ha ?_ ?_
    · rw [assetById]
      simp [haid]
    · intro y hy hpy
      rw [assetById] at hpy
      simp at hpy
      rw [hpy, haid]
  have hfindAf : s.affiliations.find?
      (activeAffiliation r.requesterEmail r.hrEmail) = none :=
    List.find?_eq_none.2 (fun x hx => by simp [hnoaff x hx])
  unfold approveRequest
  rw [if_neg hne, hfindR]
  dsimp only
  rw [if_neg (show ¬r.hrEmail ≠ r.hrEmail by simp), hfindA]
  dsimp only
  rw [if_neg (show ¬a.productQuantity ≤ 0 by omega), hfindAf]
  rw [if_pos (show (none : Option AffiliationDoc).isNone = true from rfl),
    hfindU]
  dsimp only
  rw [if_pos hquota]
  exact ⟨rfl, rfl⟩

def c5okOps : List Op :=
  [ .createUser "H" "h" "HR" "C" "" "" "",
    .addAsset "Chair" "img" "Returnable" 5 "h" "C",
    .createUser "E1" "e1" "EMPLOYEE" "" "" "" "",
    .createUser "E2" "e2" "EMPLOYEE" "" "" "" "",
    .createUser "E3" "e3" "EMPLOYEE" "" "" "" "",
    .createUser "E4" "e4" "EMPLOYEE" "" "" "" "",
    .createUser "E5" "e5" "EMPLOYEE" "" "" "" "",
    .createAssetRequest 1 "e1" "",
    .createAssetRequest 1 "e2" "",
    .createAssetRequest 1 "e3" "",
    .createAssetRequest 1 "e4" "",
    .createAssetRequest 1 "e5" "",
    .approveRequest 1 "h",
    .approveRequest 2 "h",
    .approveRequest 3 "h",
    .approveRequest 4 "h",
    .approveRequest 5 "h",
    .createUser "E6" "e6" "EMPLOYEE" "" "" "" "",
    .addAsset "Desk" "img" "Returnable" 1 "h" "C",
    .createAssetRequest 2 "e6" "" ]

theorem claimC5_witness :
    (approveRequest (runOps initDB c5okOps) 6 "h").1.code = 403 ∧
      (approveRequest (runOps initDB c5okOps) 6 "h").2 =
        runOps initDB c5okOps :=
  claimC5_amended_quota (runOps initDB c5okOps) ⟨c5okOps, rfl⟩
    { rid := 6, assetId := 2, assetName := "Desk",
      assetType := "Returnable", requesterName := "E6",
      requesterEmail := "e6", hrEmail := "h", companyName := "C",
      approvalDate := none, rejectionDate := none,
      requestStatus := "pending", note := "" }
    { name := "H", email := "h", role := "HR", dateOfBirth := "",
      companyName := "C", companyLogo := "", subscription := "basic",
      packageLimit := 5, currentEmployees := 5, photo := "" }
    { aid := 2, productName := "Desk", productImage := "img",
      productType := "Returnable", productQuantity := 1,
      availableQuantity := 1, hrEmail := "h", companyName := "C" }
    (by decide) rfl (by decide) (by decide) rfl rfl (by decide) rfl
    (by decide) (by decide) (by decide)

def c7cexOps : List Op :=
  [ .createUser "H" "h" "HR" "C" "" "" "",
    .createUser "E1" "e1" "EMPLOYEE" "" "" "" "",
    .addAsset "Laptop" "img" "Returnable" 1 "h" "C",
    .createAssetRequest 1 "e1" "",
    .approveRequest 1 "h" ]

/-- Claim C7 fails as stated on its duplicate refusal code: the stock
guard (index.js 2016-2022) precedes the duplicate guard (index.js
2025-2036), so when the asset is already assigned to the employee with
status `assigned` but its stock has been drained to zero — here by the
very approval that created the duplicate — a renewed direct-assign
answers 400, not the claimed 409, even though the employee's affiliation
is active. -/
theorem claimC7_counterexample :
    (∃ d ∈ (runOps initDB c7cexOps).assignments,
      assignedAssetToEmployee 1 "e1" d = true) ∧
    (∃ af ∈ (runOps initDB c7cexOps).affiliations,
      activeAffiliation "e1" "h" af = true) ∧
    (directAssign (runOps initDB c7cexOps) "h" "e1" 1).1.code = 400 ∧
    (directAssign (runOps initDB c7cexOps) "h" "e1" 1).1.code ≠ 409 := by
  decide

/-- Claim C7, amended: direct-assign fails with HTTP 403 and no state
change when no active affiliation links the employee to the HR; when the
earlier guards pass (active affiliation, asset owned by the calling HR
and still in stock) an existing assignment of that asset to that employee
with status `assigned` is refused with HTTP 409 and no state change —
with the stock guard's 400 taking precedence when the asset is out of
stock; and on success it decrements both quantity fields of the asset by
one and appends exactly one assignment document with status `assigned`. -/
theorem claimC7_amended_direct_assign (s : DB) (hs : Reachable s) (h e : String)
    (assetId : Nat) (hne : h ≠ "") (hne2 : e ≠ "") (hne3 : assetId ≠ 0) :
    ((∃ u ∈ s.users, isHRWithEmail h u = true) →
     (∀ x ∈ s.affiliations, activeAffiliation e h x = false) →
      (directAssign s h e assetId).1.code = 403 ∧
        (directAssign s h e assetId).2 = s) ∧
    (∀ af ∈ s.affiliations, activeAffiliation e h af = true →
     ∀ a ∈ s.assets, a.aid = assetId → a.hrEmail = h →
      0 < a.productQuantity →
      (∃ d ∈ s.assignments, assignedAssetToEmployee assetId e d = true) →
      (directAssign s h e assetId).1.code = 409 ∧
        (directAssign s h e assetId).2 = s) ∧
    (∀ af ∈ s.affiliations, activeAffiliation e h af = true →
     ∀ a ∈ s.assets, a.aid = assetId → a.hrEmail = h →
      0 < a.productQuantity →
      (∀ d ∈ s.assignments, assignedAssetToEmployee assetId e d = false) →
      (directAssign s h e assetId).1.code = 200 ∧
        decrementBoth a ∈ (directAssign s h e assetId).2.assets ∧
        ∃ nd : AssignmentDoc,
          (directAssign s h e assetId).2.assignments =
            s.assignments ++ [nd] ∧
          nd.status = "assigned" ∧ nd.assetId = assetId ∧
          nd.employeeEmail = e) := by
  have hI := inv_reachable hs
  have hfalsy : ¬(h = "" ∨ e = "" ∨ assetId = 0) := by
    simp [hne, hne2, hne3]
  have hnotnone : ∀ u ∈ s.users, isHRWithEmail h u = true →
      ¬((s.users.find? (isHRWithEmail h)).isNone = true) := by
    intro u hu hup
    cases hfu : s.users.find? (isHRWithEmail h) with
    | none =>
        have := List.find?_eq_none.1 hfu u hu
        simp [hup] at this
    | some w => simp
  have hcommon : ∀ af ∈ s.affiliations, activeAffiliation e h af = true →
      ∀ a ∈ s.assets, a.aid = assetId → a.hrEmail = h →
      0 < a.productQuantity →
      s.affiliations.find? (activeAffiliation e h) = some af ∧
      s.assets.find? (fun x => x.aid == assetId && x.hrEmail == h) = some a ∧
      ¬((s.users.find? (isHRWithEmail h)).isNone = true) := by
    intro af haf hafp a ha haid hahr hstock
    have hHR : hasHR s.users af.hrEmail := hI.affilHR af haf
    have hafh : af.hrEmail = h := (activeAffiliation_iff.1 hafp).2.1
    obtain ⟨u, hu, hue, hur⟩ := hHR
    have hup : isHRWithEmail h u = true := by
      rw [isHRWithEmail_iff]
      exact ⟨by rw [hue, hafh], hur⟩
    refine ⟨?_, ?_, hnotnone u hu hup⟩
    · cases hfa : s.affiliations.find? (activeAffiliation e h) with
      | none =>
          have := List.find?_eq_none.1 hfa af haf
          simp [hafp] at this
      | some y =>
          have hy := List.mem_of_find?_eq_some hfa
          have hpy := List.find?_some hfa
          rw [eq_of_countP_le_one (hI.activeUnique e h) y hy af haf hpy hafp]
    · refine find?_eq_of_key hI.assetsNodup ha ?_ ?_
      · rw [Bool.and_eq_true]
        exact ⟨by simp [haid], by simp [hahr]⟩
      · intro y hy hpy
        rw [Bool.and_eq_true] at hpy
        have : y.aid = assetId := by simpa using hpy.1
        rw [this, haid]
  refine ⟨?_, ?_, ?_⟩
  · intro hhr hnoaff
    obtain ⟨u, hu, hup⟩ := hhr
    have hfaffnone : s.affiliations.find? (activeAffiliation e h) = none :=
      List.find?_eq_none.2 (fun x hx => by simp [hnoaff x hx])
    unfold directAssign
    rw [if_neg hfalsy, if_neg (hnotnone u hu hup), hfaffnone]
    exact ⟨rfl, rfl⟩
  · intro af haf hafp a ha haid hahr hstock hdup
    obtain ⟨hfaff, hfasset, hnn⟩ := hcommon af haf hafp a ha haid hahr hstock
    obtain ⟨d, hd, hdp⟩ := hdup
    have hdsome : ((s.assignments.find?
        (assignedAssetToEmployee assetId e)).isSome = true) := by
      rw [List.find?_isSome]
      exact ⟨d, hd, hdp⟩
    unfold directAssign
    rw [if_neg hfalsy, if_neg hnn, hfaff]
    dsimp only
    rw [hfasset]
    dsimp only
    rw [if_neg (show ¬a.productQuantity ≤ 0 by omega), if_pos hdsome]
    exact ⟨rfl, rfl⟩
  · intro af haf hafp a ha haid hahr hstock hnodup
    obtain ⟨hfaff, hfasset, hnn⟩ := hcommon af haf hafp a ha haid hahr hstock
    have hdnone : s.assignments.find? (assignedAssetToEmployee assetId e)
        = none :=
      List.find?_eq_none.2 (fun x hx => by simp [hnodup x hx])
    have hany : s.assets.any (assetInStockById assetId) = true := by
      rw [List.any_eq_true]
      refine ⟨a, ha, ?_⟩
      rw [assetInStockById, Bool.and_eq_true]
      exact ⟨by simp [haid], by simp [hstock]⟩
    unfold directAssign
    rw [if_neg hfalsy, if_neg hnn, hfaff]
    dsimp only
    rw [hfasset]
    dsimp only
    rw [if_neg (show ¬a.productQuantity ≤ 0 by omega), hdnone]
    rw [if_neg (show ¬((none : Option AssignmentDoc).isSome = true) by simp),
      if_neg (not_not_intro hany)]
    refine ⟨rfl, ?_, ⟨_, rfl, rfl, rfl, rfl⟩⟩
    refine mem_updateFirst_target ha ?_ ?_
    · rw [assetInStockById, Bool.and_eq_true]
      exact ⟨by simp [haid], by simp [hstock]⟩
    · intro y hy hpy
      rw [assetInStockById, Bool.and_eq_true] at hpy
      have : y.aid = assetId := by simpa using hpy.1
      exact List.inj_on_of_nodup_map hI.assetsNodup hy ha (by rw [this, haid])

def c7ops : List Op :=
  [ .createUser "H" "h" "HR" "C" "" "" "",
    .addAsset "Laptop" "img" "Returnable" 3 "h" "C",
    .createUser "E1" "e1" "EMPLOYEE" "" "" "" "",
    .createUser "E2" "e2" "EMPLOYEE" "" "" "" "",
    .createAssetRequest 1 "e1" "",
    .approveRequest 1 "h" ]

theorem claimC7_witness :
    ((directAssign (runOps initDB c7ops) "h" "e2" 1).1.code = 403 ∧
      (directAssign (runOps initDB c7ops) "h" "e2" 1).2 =
        runOps initDB c7ops) ∧
    ((directAssign (runOps initDB c7ops) "h" "e1" 1).1.code = 409 ∧
      (directAssign (runOps initDB c7ops) "h" "e1" 1).2 =
        runOps initDB c7ops) := by
  have hmain1 := claimC7_amended_direct_assign (runOps initDB c7ops)
    ⟨c7ops, rfl⟩ "h" "e2" 1 (by decide) (by decide) (by decide)
  have hmain2 := claimC7_amended_direct_assign (runOps initDB c7ops)
    ⟨c7ops, rfl⟩ "h" "e1" 1 (by decide) (by decide) (by decide)
  refine ⟨hmain1.1 (by decide) (by decide), ?_⟩
  exact hmain2.2.1
    { employeeEmail := "e1", employeeName := "E1", hrEmail := "h",
      companyName := "C", companyLogo := "", status := "active" }
    (by decide) (by decide)
    { aid := 1, productName := "Laptop", productImage := "img",
      productType := "Returnable", productQuantity := 2,
      availableQuantity := 2, hrEmail := "h", companyName := "C" }
    (by decide) rfl rfl (by decide) (by decide)

def c10cexOps : List Op :=
  [ .createUser "H" "h" "HR" "C" "" "" "",
    .createUser "E1" "e1" "EMPLOYEE" "" "" "" "",
    .createUser "E2" "e2" "EMPLOYEE" "" "" "" "",
    .addAsset "Laptop" "img" "Returnable" 1 "h" "C",
    .createAssetRequest 1 "e1" "",
    .rejectRequest 1 "h",
    .createAssetRequest 1 "e2" "",
    .approveRequest 2 "h" ]

/-- Claim C10 fails as stated on its refusal codes: when a request of
some status already exists for the pair but the asset is out of stock,
the re-creation attempt is refused with 400 (the stock check precedes the
duplicate check), not with 409 or 403 — here employee `e2` already has an
approved request for asset 1, whose stock was drained to zero by that
approval. -/
theorem claimC10_counterexample :
    (∃ r ∈ (runOps initDB c10cexOps).requests, r.assetId = 1 ∧
      r.requesterEmail = "e2" ∧ r.requestStatus = "approved") ∧
    (createAssetRequest (runOps initDB c10cexOps) 1 "e2" "").1.code = 400 ∧
    (createAssetRequest (runOps initDB c10cexOps) 1 "e2" "").1.code ≠ 409 ∧
    (createAssetRequest (runOps initDB c10cexOps) 1 "e2" "").1.code ≠ 403 := by
  decide

/-- Claim C10, amended: in every reachable state each (asset, employee)
pair has at most one request document; request creation never inserts
when any request for the pair already exists (so each pair's history has
length at most one); and when the requester and stock guards pass, the
refusal code is 409 for an existing pending or approved request and 403
for a rejected one — with 400 taking precedence when an earlier guard
(missing fields, invalid requester, missing asset or zero stock) fails. -/
theorem claimC10_amended_pair_history (s : DB) (hs : Reachable s) :
    (∀ assetId e, pairCount s.requests assetId e ≤ 1) ∧
    (∀ (assetId : Nat) (e nt : String) (r : RequestDoc), r ∈ s.requests →
      r.assetId = assetId → r.requesterEmail = e →
      (createAssetRequest s assetId e nt).2 = s ∧
        (createAssetRequest s assetId e nt).1.code ≠ 201) ∧
    (∀ (assetId : Nat) (e nt : String) (r : RequestDoc) (u : UserDoc)
      (a : AssetDoc), r ∈ s.requests → r.assetId = assetId →
      r.requesterEmail = e → assetId ≠ 0 → e ≠ "" →
      u ∈ s.users → u.email = e → u.role = "EMPLOYEE" →
      a ∈ s.assets → a.aid = assetId → 0 < a.productQuantity →
      (createAssetRequest s assetId e nt).1.code = 409 ∨
        (createAssetRequest s assetId e nt).1.code = 403) := by
  have hI := inv_reachable hs
  refine ⟨hI.pairUnique, ?_, ?_⟩
  · intro assetId e nt r hr hra hre
    exact create_refused hI nt hr hra hre
  · intro assetId e nt r u a hr hra hre h0 he hu hue hur ha haid hstock
    have hc := create_duplicate_code hI nt hr hra hre h0 he hu hue hur
      ha haid hstock
    rcases hI.statusWF r hr with hst | hst | hst
    · exact Or.inl (hc.1 hst)
    · exact Or.inl (hc.2.1 hst)
    · exact Or.inr (hc.2.2 hst)

def c10okOps : List Op :=
  [ .createUser "H" "h" "HR" "C" "" "" "",
    .createUser "E1" "e1" "EMPLOYEE" "" "" "" "",
    .addAsset "Laptop" "img" "Returnable" 3 "h" "C",
    .createAssetRequest 1 "e1" "" ]

theorem claimC10_witness :
    pairCount (runOps initDB c10okOps).requests 1 "e1" ≤ 1 ∧
    ((createAssetRequest (runOps initDB c10okOps) 1 "e1" "").2 =
      runOps initDB c10okOps ∧
     (createAssetRequest (runOps initDB c10okOps) 1 "e1" "").1.code ≠ 201) ∧
    ((createAssetRequest (runOps initDB c10okOps) 1 "e1" "").1.code = 409 ∨
     (createAssetRequest (runOps initDB c10okOps) 1 "e1" "").1.code = 403) := by
  have hm := claimC10_amended_pair_history (runOps initDB c10okOps)
    ⟨c10okOps, rfl⟩
  refine ⟨hm.1 1 "e1", ?_, ?_⟩
  · exact hm.2.1 1 "e1" ""
      { rid := 1, assetId := 1, assetName := "Laptop",
        assetType := "Returnable", requesterName := "E1",
        requesterEmail := "e1", hrEmail := "h", companyName := "C",
        approvalDate := none, rejectionDate := none,
        requestStatus := "pending", note := "" }
      (by decide) rfl rfl
  · exact hm.2.2 1 "e1" ""
      { rid := 1, assetId := 1, assetName := "Laptop",
        assetType := "Returnable", requesterName := "E1",
        requesterEmail := "e1", hrEmail := "h", companyName := "C",
        approvalDate := none, rejectionDate := none,
        requestStatus := "pending", note := "" }
      { name := "E1", email := "e1", role := "EMPLOYEE", dateOfBirth := "",
        companyName := "", companyLogo := "", subscription := "",
        packageLimit := 0, currentEmployees := 0, photo := "" }
      { aid := 1, productName := "Laptop", productImage := "img",
        productType := "Returnable", productQuantity := 3,
        availableQuantity := 3, hrEmail := "h", companyName := "C" }
      (by decide) rfl rfl (by decide) (by decide) (by decide) rfl rfl
      (by decide) rfl (by decide)

def c4cexOps : List Op :=
  [ .createUser "H" "h" "HR" "C" "" "" "",
    .createUser "E1" "e1" "EMPLOYEE" "" "" "" "",
    .createUser "E2" "e2" "EMPLOYEE" "" "" "" "",
    .addAsset "Laptop" "img" "Returnable" 1 "h" "C",
    .createAssetRequest 1 "e1" "",
    .rejectRequest 1 "h",
    .createAssetRequest 1 "e2" "",
    .approveRequest 2 "h" ]

/-- Claim C4 fails as stated on its response code: employee `e1`'s
request for asset 1 was rejected, the asset's stock then dropped to zero
through `e2`'s approved request, and `e1`'s renewed attempt is refused
with 400 ("Asset not found or out of stock"), not the claimed 403 —
though no request document is inserted. -/
theorem claimC4_counterexample :
    (∃ r ∈ (runOps initDB c4cexOps).requests, r.assetId = 1 ∧
      r.requesterEmail = "e1" ∧ r.requestStatus = "rejected") ∧
    (createAssetRequest (runOps initDB c4cexOps) 1 "e1" "").1.code = 400 ∧
    (createAssetRequest (runOps initDB c4cexOps) 1 "e1" "").1.code ≠ 403 := by
  decide

/-- Claim C4, amended: once a request for an (asset, employee) pair has
been rejected, every later request-creation attempt for that pair — after
any further sequence of operations — inserts no request document and is
never answered 201; and whenever the attempt passes the earlier guards
(valid employee requester, asset present with positive stock), it is
refused with the permanent-block 403.  When an earlier guard fails, its
own 400/403 error takes precedence over the permanent-block code. -/
theorem claimC4_amended_permanent_block (s : DB) (hs : Reachable s)
    (ops : List Op) (assetId : Nat) (e nt : String) (r : RequestDoc)
    (hr : r ∈ s.requests) (hra : r.assetId = assetId)
    (hre : r.requesterEmail = e) (hrej : r.requestStatus = "rejected") :
    ((createAssetRequest (runOps s ops) assetId e nt).2 = runOps s ops ∧
     (createAssetRequest (runOps s ops) assetId e nt).1.code ≠ 201) ∧
    (∀ u ∈ (runOps s ops).users, u.email = e → u.role = "EMPLOYEE" →
     ∀ a ∈ (runOps s ops).assets, a.aid = assetId →
      0 < a.productQuantity → assetId ≠ 0 → e ≠ "" →
      (createAssetRequest (runOps s ops) assetId e nt).1.code = 403) := by
  have hI := inv_reachable hs
  have hI' : Inv (runOps s ops) := inv_runOps hI ops
  have hr' : r ∈ (runOps s ops).requests :=
    rejected_persists_runOps hI ops r hr hrej
  refine ⟨create_refused hI' nt hr' hra hre, ?_⟩
  intro u hu hue hur a ha haid hstock h0 he
  exact (create_duplicate_code hI' nt hr' hra hre h0 he hu hue hur
    ha haid hstock).2.2 hrej

def c4baseOps : List Op :=
  [ .createUser "H" "h" "HR" "C" "" "" "",
    .createUser "E1" "e1" "EMPLOYEE" "" "" "" "",
    .createUser "E2" "e2" "EMPLOYEE" "" "" "" "",
    .addAsset "Laptop" "img" "Returnable" 2 "h" "C",
    .createAssetRequest 1 "e1" "",
    .rejectRequest 1 "h" ]

def c4moreOps : List Op :=
  [ .createAssetRequest 1 "e2" "",
    .approveRequest 2 "h" ]

theorem claimC4_witness :
    ((createAssetRequest (runOps (runOps initDB c4baseOps) c4moreOps)
        1 "e1" "").2 = runOps (runOps initDB c4baseOps) c4moreOps ∧
     (createAssetRequest (runOps (runOps initDB c4baseOps) c4moreOps)
        1 "e1" "").1.code ≠ 201) ∧
    (createAssetRequest (runOps (runOps initDB c4baseOps) c4moreOps)
        1 "e1" "").1.code = 403 := by
  have hm := claimC4_amended_permanent_block (runOps initDB c4baseOps)
    ⟨c4baseOps, rfl⟩ c4moreOps 1 "e1" ""
    { rid := 1, assetId := 1, assetName := "Laptop",
      assetType := "Returnable", requesterName := "E1",
      requesterEmail := "e1", hrEmail := "h", companyName := "C",
      approvalDate := none, rejectionDate := some 0,
      requestStatus := "rejected", note := "" }
    (by decide) rfl rfl rfl
  refine ⟨hm.1, ?_⟩
  exact hm.2
    { name := "E1", email := "e1", role := "EMPLOYEE", dateOfBirth := "",
      companyName := "", companyLogo := "", subscription := "",
      packageLimit := 0, currentEmployees := 0, photo := "" }
    (by decide) rfl rfl
    { aid := 1, productName := "Laptop", productImage := "img",
      productType := "Returnable", productQuantity := 1,
      availableQuantity := 1, hrEmail := "h", companyName := "C" }
    (by decide) rfl (by decide) (by decide) (by decide)

/-- Claim C6: removing an employee who holds an active affiliation under
an HR answers 200 with `returnedAssets` equal to the number of assigned
(employee, HR) assignment records; it flips exactly those records to
status returned with a stamped return date, leaves every other assignment
untouched, restocks each asset by one unit per such assignment carrying
its id (both quantity fields), and leaves no active affiliation for the
pair. -/
theorem claimC6_remove_employee (s : DB) (hs : Reachable s)
    (h e : String) (hh : h ≠ "") (he : e ≠ "") (af : AffiliationDoc)
    (haf : af ∈ s.affiliations)
    (hact : activeAffiliation e h af = true) :
    (removeEmployee s h e).1.code = 200 ∧
    (removeEmployee s h e).1.returnedAssets =
      some (s.assignments.countP (assignedForPair e h)) ∧
    (removeEmployee s h e).2.assignments =
      s.assignments.map (fun x => if assignedForPair e h x = true
        then { x with status := "returned", returnDate := some 0 }
        else x) ∧
    (removeEmployee s h e).2.assets =
      s.assets.map (fun x => incrementBy
        ((s.assignments.filter (assignedForPair e h)).countP
          (fun a => a.assetId == x.aid)) x) ∧
    (removeEmployee s h e).2.affiliations.countP
      (activeAffiliation e h) = 0 := by
  have hI := inv_reachable hs
  have hafh : af.hrEmail = h := by
    simp [activeAffiliation] at hact
    exact hact.1.2
  have hhr : hasHR s.users h := hafh ▸ hI.affilHR af haf
  obtain ⟨u, hu, hue, hur⟩ := hhr
  have hfind : (s.users.find? (isHRWithEmail h)).isSome :=
    find?_isSome_of_mem hu (by simp [isHRWithEmail, hue, hur])
  have hany : s.affiliations.any (activeAffiliation e h) = true :=
    List.any_eq_true.2 ⟨af, haf, hact⟩
  unfold removeEmployee
  rw [if_neg (show ¬(h = "" ∨ e = "") by simp [hh, he]),
    if_neg (show ¬((s.users.find? (isHRWithEmail h)).isNone = true) by
      intro hcon
      rw [Option.isNone_iff_eq_none] at hcon
      rw [hcon] at hfind
      simp at hfind),
    if_neg (not_not_intro hany)]
  dsimp only
  refine ⟨rfl, ?_, ?_, ?_, ?_⟩
  · show some (s.assignments.filter (assignedForPair e h)).length =
      some (s.assignments.countP (assignedForPair e h))
    rw [List.countP_eq_length_filter]
  · show ((s.assignments.filter (assignedForPair e h)).foldl returnOne
      _).assignments = _
    rw [foldl_returnOne_assigns_proj]
    show (s.assignments.filter (assignedForPair e h)).foldl _
      s.assignments = _
    rw [foldl_flip_eq_map _ _ hI.assignsNodup]
    apply map_eq_map_of_mem
    intro x hx
    exact if_congr (sid_mem_filter_iff hI.assignsNodup hx) rfl rfl
  · show ((s.assignments.filter (assignedForPair e h)).foldl returnOne
      _).assets = _
    rw [foldl_returnOne_assets_proj]
    show (s.assignments.filter (assignedForPair e h)).foldl _
      s.assets = _
    rw [foldl_inc_eq_map _ _ hI.assetsNodup]
  · show ((s.assignments.filter (assignedForPair e h)).foldl returnOne
      _).affiliations.countP (activeAffiliation e h) = 0
    rw [foldl_returnOne_affiliations]
    show (updateFirst (activeAffiliation e h)
      (fun a => { a with status := "inactive" })
      s.affiliations).countP (activeAffiliation e h) = 0
    have hflip := @countP_updateFirst_flip AffiliationDoc
      (activeAffiliation e h)
      (fun a => { a with status := "inactive" })
      (activeAffiliation e h) s.affiliations hany (fun x _ hp => hp)
      (fun x _ _ => by simp [activeAffiliation])
    have hone := hI.activeUnique e h
    omega

def c6ops : List Op :=
  [ .createUser "H" "h" "HR" "C" "" "" "",
    .createUser "E1" "e1" "EMPLOYEE" "" "" "" "",
    .addAsset "Laptop" "img" "Returnable" 2 "h" "C",
    .createAssetRequest 1 "e1" "",
    .approveRequest 1 "h" ]

theorem claimC6_witness :
    (removeEmployee (runOps initDB c6ops) "h" "e1").1.code = 200 ∧
    (removeEmployee (runOps initDB c6ops) "h" "e1").1.returnedAssets =
      some ((runOps initDB c6ops).assignments.countP
        (assignedForPair "e1" "h")) ∧
    (removeEmployee (runOps initDB c6ops) "h" "e1").2.assignments =
      (runOps initDB c6ops).assignments.map
        (fun x => if assignedForPair "e1" "h" x = true
          then { x with status := "returned", returnDate := some 0 }
          else x) ∧
    (removeEmployee (runOps initDB c6ops) "h" "e1").2.assets =
      (runOps initDB c6ops).assets.map (fun x => incrementBy
        (((runOps initDB c6ops).assignments.filter
          (assignedForPair "e1" "h")).countP
          (fun a => a.assetId == x.aid)) x) ∧
    (removeEmployee (runOps initDB c6ops) "h" "e1").2.affiliations.countP
      (activeAffiliation "e1" "h") = 0 :=
  claimC6_remove_employee (runOps initDB c6ops) ⟨c6ops, rfl⟩ "h" "e1"
    (by decide) (by decide)
    { employeeEmail := "e1", employeeName := "E1", hrEmail := "h",
      companyName := "C", companyLogo := "", status := "active" }
    (by decide) (by decide)

end AssetVerse
